import Mathlib

/-! # Verification of the wasm code-generation backend (`gen_wasm/src/backend.rs`)

This file gives a shallow embedding of the backend driver in
`src/compiler/gen_wasm/src/backend.rs` and proves the specification claims
about it.

Modelling conventions:

* The virtual machine's `CodeBuilder` is modelled as a list of emitted
  instructions (`Instr`).  Every emission function returns the list of
  instructions it emits together with the updated backend state (`Ctx`),
  and sequencing appends the lists in emission order.
* Machine integers are modelled as `Nat` / `Int` with explicit
  two's-complement wrapping where the source casts between widths.
* Rust strings are modelled as byte lists (`List Nat`).
* Collaborator crates that are not part of the sources under verification
  (`storage.rs`, `code_builder.rs`, the `wasm_module` sections and linking
  types, `roc_mono::layout`, and the crate-root constants) are modelled
  from the specification; each such definition carries a doc comment
  starting with `Modelled from the spec:`.  Code emitted by the storage
  manager on behalf of the driver is represented by dedicated
  pseudo-instructions (`loadSymbol`, `copyMemoryI`, `copyFromMemory`,
  `copyToMemory`, `cloneValue`, `promoteToLocal`) carrying exactly the
  arguments the driver passes at the call site.
* Fatal internal errors (`internal_error!` / `todo!`), which abort the
  whole compilation in the source, are modelled by the marker instruction
  `Instr.internalError`; no claim concerns behaviour after such an abort.
-/

namespace RocWasm

/-- Modelled from the spec: the wasm value types used by the backend
(`wasm_module::ValueType`, not under `src/`). -/
inductive ValueType where
  | i32 | i64 | f32 | f64
deriving DecidableEq, Repr

/-- Modelled from the spec: the block type annotation of a structured
control instruction (`wasm_module::BlockType`, not under `src/`). -/
inductive BlockType where
  | noResult
  | value (vt : ValueType)
deriving DecidableEq, Repr

/-- Modelled from the spec: a symbol's storage class
(`storage::StoredValue`, not under `src/`).  The `FrameSlot` /
`StackMemory` location is collapsed into the pair (pointer local, byte
offset) that `location.local_and_offset(stack_frame_pointer)` returns. -/
inductive StoredValue where
  | virtualMachineStack (vt : ValueType)
  | local (id : Nat) (vt : ValueType)
  | stackMemory (ptrLocal : Nat) (offset : Nat) (size : Nat) (alignmentBytes : Nat)
deriving DecidableEq, Repr

/-- The instruction stream emitted through `CodeBuilder`.  One constructor
per `code_builder` method invoked by `backend.rs`, plus pseudo-instructions
for code emitted by the storage manager (see module docstring). -/
inductive Instr where
  | block (bt : BlockType)
  | loopI (bt : BlockType)
  | ifI (bt : BlockType)
  | elseI
  | endI
  | br (levels : Nat)
  | brIf (levels : Nat)
  | i32Const (v : Int)
  | i64Const (v : Int)
  | f32Const (bits : Nat)
  | f64Const (bits : Nat)
  | i32Eqz | i32Eq | i64Eq | f32Eq | f64Eq
  | i32Add | i32And | i32Or
  | getLocal (id : Nat)
  | setLocal (id : Nat)
  | i32Store (align : Nat) (offset : Nat)
  | i32Store8 (align : Nat) (offset : Nat)
  | i32Store16 (align : Nat) (offset : Nat)
  | i64Store (align : Nat) (offset : Nat)
  | i32Load (align : Nat) (offset : Nat)
  | i32Load8u (align : Nat) (offset : Nat)
  | i32Load16u (align : Nat) (offset : Nat)
  | i64Load (align : Nat) (offset : Nat)
  | i32ConstMemAddr (addr : Nat) (symIndex : Nat)
  | call (fnIndex : Nat) (linkerSymIndex : Nat) (numArgs : Nat) (hasRet : Bool)
  | returnI
  | loadSymbol (sym : Nat)
  | copyMemoryI (fromPtr fromOffset toPtr toOffset size align : Nat)
  | copyFromMemory (sym : Nat) (ptr : Nat) (offset : Nat)
  | copyToMemory (ptr : Nat) (offset : Nat) (sym : Nat)
  | cloneValue (toStorage : StoredValue) (fromStorage : StoredValue) (sym : Nat)
  | promoteToLocal (sym : Nat) (id : Nat)
  | internalError
deriving DecidableEq, Repr

/-- Modelled from the spec: the layout of a value
(`roc_mono::layout::Layout`, not under `src/`): primitive scalars and
structs with ordered field layouts.  Tag unions are kept in the separate
`UnionLayout` type below, mirroring how `backend.rs` receives them. -/
inductive Layout where
  | int32 | int64 | float32 | float64 | boolL | strL
  | structL (fields : List Layout)

/-- Modelled from the spec: the five physical tag-union representations
(`roc_mono::layout::UnionLayout`, not under `src/`). -/
inductive UnionLayout where
  | nonRecursive (tags : List (List Layout))
  | recursive (tags : List (List Layout))
  | nonNullableUnwrapped (fields : List Layout)
  | nullableWrapped (nullableId : Nat) (otherTags : List (List Layout))
  | nullableUnwrapped (nullableId : Bool) (otherFields : List Layout)

/-- Modelled from the spec: pointer size on wasm32 (`PTR_SIZE` in the crate
root, not under `src/`). -/
def PTR_SIZE : Nat := 4

/-- Modelled from the spec: the value type of pointers (`PTR_TYPE`). -/
def PTR_TYPE : ValueType := ValueType.i32

mutual

/-- Modelled from the spec: `Layout::stack_size` (not under `src/`): the
byte size a value occupies, scalars being their machine width. -/
def Layout.stackSize : Layout → Nat
  | .int32 => 4
  | .int64 => 8
  | .float32 => 4
  | .float64 => 8
  | .boolL => 1
  | .strL => 8
  | .structL fields => Layout.stackSizeList fields

/-- Sum of the stack sizes of a list of layouts. -/
def Layout.stackSizeList : List Layout → Nat
  | [] => 0
  | l :: rest => l.stackSize + Layout.stackSizeList rest

end

/-- Modelled from the spec: `Layout::alignment_bytes` (not under `src/`). -/
def Layout.alignmentBytes : Layout → Nat
  | .int32 => 4
  | .int64 => 8
  | .float32 => 4
  | .float64 => 8
  | .boolL => 1
  | .strL => 4
  | .structL _ => 8

/-- Modelled from the spec: the backend's own view of a layout
(`gen_wasm/src/layout.rs::WasmLayout`, not under `src/`): either a
primitive machine value or a block of stack memory. -/
inductive WasmLayout where
  | primitive (vt : ValueType) (size : Nat)
  | stackMemory (size : Nat) (alignmentBytes : Nat)
deriving DecidableEq, Repr

/-- Modelled from the spec: `WasmLayout::new` (not under `src/`): scalars
become primitives of their value type; strings and structs become stack
memory of the layout's size and alignment. -/
def wasmLayoutOf : Layout → WasmLayout
  | .int32 => .primitive .i32 4
  | .int64 => .primitive .i64 8
  | .float32 => .primitive .f32 4
  | .float64 => .primitive .f64 8
  | .boolL => .primitive .i32 1
  | .strL => .stackMemory 8 4
  | .structL fields =>
      .stackMemory (Layout.stackSizeList fields) (Layout.structL fields).alignmentBytes

/-- Modelled from the spec: how a procedure returns its result
(`gen_wasm/src/layout.rs::ReturnMethod`, not under `src/`). -/
inductive ReturnMethod where
  | primitive (vt : ValueType)
  | noReturnValue
  | writeToPointerArg
deriving DecidableEq, Repr

/-- Modelled from the spec: `WasmLayout::return_method` (not under
`src/`): primitives are returned on the operand stack, zero-sized values
produce no return value, aggregates are written through a pointer
argument. -/
def WasmLayout.returnMethod : WasmLayout → ReturnMethod
  | .primitive vt _ => .primitive vt
  | .stackMemory 0 _ => .noReturnValue
  | .stackMemory _ _ => .writeToPointerArg

/-- Modelled from the spec: the first wasm argument type of a layout under
the C calling convention (`WasmLayout::arg_types(CallConv::C)[0]`, not
under `src/`); used by Switch to pick the comparison width. -/
def condValueType : Layout → ValueType
  | .int64 => .i64
  | .float32 => .f32
  | .float64 => .f64
  | _ => .i32

/-- Two's-complement wrap of an integer to a signed 32-bit value. -/
def wrapI32 (v : Int) : Int := (v + 2 ^ 31) % 2 ^ 32 - 2 ^ 31

/-- Two's-complement wrap of an integer to a signed 64-bit value. -/
def wrapI64 (v : Int) : Int := (v + 2 ^ 63) % 2 ^ 64 - 2 ^ 63

/-- Modelled from the spec: a function or global symbol in the linking
section (`wasm_module::linking::WasmObjectSymbol`, not under `src/`). -/
inductive WasmObjectSymbol where
  | defined (flags : Nat) (index : Nat) (name : String)
  | imported (flags : Nat) (index : Nat)
deriving DecidableEq, Repr

/-- Modelled from the spec: a data symbol in the linking section
(`wasm_module::linking::DataSymbol`, not under `src/`). -/
inductive DataSymbol where
  | defined (flags : Nat) (name : String) (segmentIndex : Nat)
      (segmentOffset : Nat) (size : Nat)
deriving DecidableEq, Repr

/-- Modelled from the spec: a linker symbol table entry
(`wasm_module::SymInfo`, not under `src/`). -/
inductive SymInfo where
  | function (s : WasmObjectSymbol)
  | data (d : DataSymbol)
  | global (s : WasmObjectSymbol)
deriving DecidableEq, Repr

/-- Modelled from the spec: the weak-binding linker symbol flag
(`WASM_SYM_BINDING_WEAK`, not under `src/`). -/
def WASM_SYM_BINDING_WEAK : Nat := 1

/-- Modelled from the spec: the undefined-symbol linker flag
(`WASM_SYM_UNDEFINED`, not under `src/`). -/
def WASM_SYM_UNDEFINED : Nat := 16

/-- The memory address where the constants data segment is loaded
(`CONST_SEGMENT_BASE_ADDR` in `backend.rs`). -/
def CONST_SEGMENT_BASE_ADDR : Nat := 1024

/-- Modelled from the spec: the immortal refcount sentinel
(`roc_mono::gen_refcount::REFCOUNT_MAX`, not under `src/`), whose value as
an `i32` prefixes every pooled constant. -/
def REFCOUNT_MAX : Int := 0

/-- Little-endian byte encoding of an `i32` value. -/
def i32LeBytes (v : Int) : List Nat :=
  let u := ((v % 2 ^ 32 + 2 ^ 32) % 2 ^ 32).toNat
  [u % 256, u / 256 % 256, u / 2 ^ 16 % 256, u / 2 ^ 24 % 256]

/-- The function-level and module-level mutable state of `WasmBackend`
while compiling, minus the instruction stream (which every emission
function returns explicitly). -/
structure Ctx where
  blockDepth : Int := 0
  /-- `true` while the depth counter has never gone below zero. -/
  depthOk : Bool := true
  /-- Number of `start_block` / `start_loop` calls so far. -/
  opens : Nat := 0
  /-- Number of `end_block` calls so far. -/
  closes : Nat := 0
  nextLocal : Nat := 0
  /-- Modelled from the spec: the local holding the frame base pointer
  (`storage.stack_frame_pointer`, not under `src/`). -/
  framePtr : Nat := 0
  /-- Modelled from the spec: the next free byte offset in the frame
  (`storage.stack_frame_size`, not under `src/`). -/
  frameOffset : Nat := 0
  storage : List (Nat × StoredValue) := []
  symbolLayouts : List (Nat × Layout) := []
  joinpoints : List (Nat × (Int × List StoredValue)) := []
  argTypes : List ValueType := []
  signatures : List (List ValueType × Option ValueType) := []
  builtinMap : List (String × Nat) := []
  constMap : List (List Nat × Nat) := []
  linkerSymbols : List SymInfo := []
  constSegment : List Nat := []
  numImports : Nat := 0

/-- `storage.get(sym)`: look the symbol up in the storage map.  The source
panics when the symbol is absent; the model totalizes with a junk default
that no claim relies on. -/
def Ctx.storageGet (c : Ctx) (sym : Nat) : StoredValue :=
  (c.storage.lookup sym).getD (.virtualMachineStack .i32)

/-- `self.start_block` / `self.start_loop`: bump the depth counter (the
block/loop instruction itself is appended by the caller). -/
def Ctx.startBlock (c : Ctx) : Ctx :=
  { c with blockDepth := c.blockDepth + 1, opens := c.opens + 1 }

/-- `self.end_block`: decrement the depth counter, recording whether it
stayed non-negative. -/
def Ctx.endBlock (c : Ctx) : Ctx :=
  { c with blockDepth := c.blockDepth - 1,
           closes := c.closes + 1,
           depthOk := c.depthOk && decide (0 ≤ c.blockDepth - 1) }

/-- The storage classification the driver requests for a symbol
(`storage::StoredValueKind`). -/
inductive StoredValueKind where
  | parameter | variableK | returnValue
deriving DecidableEq, Repr

/-- Round `off` up to a multiple of `align`. -/
def roundUpTo (off align : Nat) : Nat :=
  if align = 0 then off else (off + align - 1) / align * align

/-- Modelled from the spec: the byte size of a machine value type. -/
def valueTypeSize : ValueType → Nat
  | .i32 => 4
  | .i64 => 8
  | .f32 => 4
  | .f64 => 8

/-- Modelled from the spec: the byte size of a stored value, as used by
`storage.copy_value_to_memory`'s returned size (not under `src/`). -/
def storedSize : StoredValue → Nat
  | .virtualMachineStack vt => valueTypeSize vt
  | .local _ vt => valueTypeSize vt
  | .stackMemory _ _ size _ => size

/-- Modelled from the spec: `storage.allocate(layout, symbol, kind)` (not
under `src/`): scalar values default to ephemeral operand-stack storage
unless they are parameters (which get a dedicated local); aggregates get
an aligned frame slot. -/
def Ctx.allocate (c : Ctx) (wl : WasmLayout) (sym : Nat) (kind : StoredValueKind) :
    StoredValue × Ctx :=
  match wl with
  | .primitive vt _ =>
      match kind with
      | .parameter =>
          let id := c.nextLocal
          let sv := StoredValue.local id vt
          (sv, { c with nextLocal := id + 1,
                        storage := (sym, sv) :: c.storage,
                        argTypes := c.argTypes ++ [vt] })
      | _ =>
          let sv := StoredValue.virtualMachineStack vt
          (sv, { c with storage := (sym, sv) :: c.storage })
  | .stackMemory size align =>
      let off := roundUpTo c.frameOffset align
      let sv := StoredValue.stackMemory c.framePtr off size align
      let c1 := { c with frameOffset := off + size,
                         storage := (sym, sv) :: c.storage }
      match kind with
      | .parameter => (sv, { c1 with argTypes := c1.argTypes ++ [PTR_TYPE] })
      | _ => (sv, c1)

/-- Modelled from the spec: `storage.ensure_value_has_local` (not under
`src/`): promotes an ephemeral operand-stack value to a dedicated local
(the code it emits for the transfer is the `promoteToLocal`
pseudo-instruction); durable storage classes are returned unchanged. -/
def Ctx.ensureValueHasLocal (c : Ctx) (sym : Nat) (sv : StoredValue) :
    List Instr × StoredValue × Ctx :=
  match sv with
  | .virtualMachineStack vt =>
      let id := c.nextLocal
      let sv2 := StoredValue.local id vt
      ([.promoteToLocal sym id], sv2,
        { c with nextLocal := id + 1, storage := (sym, sv2) :: c.storage })
  | _ => ([], sv, c)

/-- `storage.create_anonymous_local`: reserve a fresh local id. -/
def Ctx.createAnonymousLocal (c : Ctx) : Nat × Ctx :=
  (c.nextLocal, { c with nextLocal := c.nextLocal + 1 })

/-- `call_zig_builtin` (backend.rs): emit a call to a runtime builtin,
deduplicating the import entry and its linker symbol by routine name. -/
def Ctx.callZigBuiltin (c : Ctx) (name : String) (paramTypes : List ValueType)
    (retType : Option ValueType) : List Instr × Ctx :=
  let numArgs := paramTypes.length
  let hasRet := retType.isSome
  match c.builtinMap.lookup name with
  | some symIdx =>
      match c.linkerSymbols.get? symIdx with
      | some (.function (.imported _ index)) => ([.call index symIdx numArgs hasRet], c)
      | _ => ([.internalError], c)
  | none =>
      let c1 := { c with signatures := c.signatures ++ [(paramTypes, retType)] }
      let importIndex := c1.numImports
      let symIdx := c1.linkerSymbols.length
      let c2 := { c1 with
        numImports := importIndex + 1,
        linkerSymbols :=
          c1.linkerSymbols ++ [.function (.imported WASM_SYM_UNDEFINED importIndex)],
        builtinMap := (name, symIdx) :: c1.builtinMap }
      ([.call importIndex symIdx numArgs hasRet], c2)

/-- `allocate_with_refcount` (backend.rs): request heap memory sized as
data plus a refcount header of width `max(alignment, PTR_SIZE)`, write the
biased initial refcount at `header width - PTR_SIZE`, and leave the data
address (base + header width) on the operand stack. -/
def allocateWithRefcount (comptimeDataSize : Option Nat) (alignmentBytes : Nat)
    (initialRefcount : Nat) (c : Ctx) : List Instr × Ctx :=
  let extraBytes := max alignmentBytes PTR_SIZE
  let sizeCode : List Instr :=
    match comptimeDataSize with
    | some dataSize => [.i32Const (wrapI32 (dataSize + extraBytes))]
    | none => [.i32Const (wrapI32 extraBytes), .i32Add]
  let call1 := c.callZigBuiltin "roc_alloc" [.i32, .i32] (some .i32)
  let callCode := call1.1
  let anon := call1.2.createAnonymousLocal
  let localId := anon.1
  let c2 := anon.2
  let refcountOffset := extraBytes - PTR_SIZE
  let encodedRefcount := wrapI32 (wrapI32 initialRefcount - 1 + -(2 ^ 31))
  (sizeCode ++ [Instr.i32Const (wrapI32 alignmentBytes)] ++ callCode ++
     [.setLocal localId, .getLocal localId, .i32Const encodedRefcount,
      .i32Store 4 refcountOffset, .getLocal localId,
      .i32Const (wrapI32 extraBytes), .i32Add], c2)

/-- Modelled from the spec: the linker symbol name picked from the first
usage (`layout_ids.get(..).to_symbol_string`, not under `src/`). -/
def symbolName (sym : Nat) : String :=
  "sym_" ++ toString sym

/-- `lookup_string_constant` (backend.rs): content-addressed lookup of a
pooled string constant.  Returns `(linker symbol index, elements address)`
and the updated module state, or `none` for the fatal invalid-symbol-info
path. -/
def lookupStringConstant (string : List Nat) (sym : Nat) (c : Ctx) :
    Option (Nat × Nat) × Ctx :=
  match c.constMap.lookup string with
  | some linkerSymIndex =>
      match c.linkerSymbols.get? linkerSymIndex with
      | some (.data (.defined _ _ _ segmentOffset _)) =>
          (some (linkerSymIndex, segmentOffset + CONST_SEGMENT_BASE_ADDR), c)
      | _ => (none, c)
  | none =>
      let seg1 := c.constSegment ++ i32LeBytes REFCOUNT_MAX
      let elementsOffset := seg1.length
      let elementsAddr := elementsOffset + CONST_SEGMENT_BASE_ADDR
      let linkerSymbol :=
        SymInfo.data (.defined 0 (symbolName sym) 0 elementsOffset string.length)
      let linkerSymIndex := c.linkerSymbols.length
      (some (linkerSymIndex, elementsAddr),
        { c with constSegment := seg1 ++ string,
                 constMap := (string, linkerSymIndex) :: c.constMap,
                 linkerSymbols := c.linkerSymbols ++ [linkerSymbol] })

/-- The IR literal shapes the backend supports (`roc_mono::ir::Literal`,
restricted to the shapes the claims exercise; the remaining shapes are
fatal unsupported constructs, see spec section 7). -/
inductive Literal where
  | int (v : Int)
  | boolLit (b : Bool)
  | byte (v : Nat)
  | str (s : List Nat)

/-- Little-endian value of a byte list. -/
def listLeVal : List Nat → Nat
  | [] => 0
  | b :: rest => b % 256 + 256 * listLeVal rest

/-- The packed `i64` for a short (`len < 8`) string literal: the bytes in
the low positions and `0x80 | len` in the final byte (backend.rs,
`Literal::Str` small case). -/
def packShortStr (s : List Nat) : Int :=
  wrapI64 (listLeVal s + (128 + s.length) * 256 ^ 7)

/-- `load_literal` (backend.rs). -/
def loadLiteral (lit : Literal) (storage : StoredValue) (sym : Nat) (c : Ctx) :
    List Instr × Ctx :=
  match storage with
  | .virtualMachineStack vt =>
      match lit, vt with
      | .int v, .i64 => ([.i64Const (wrapI64 v)], c)
      | .int v, .i32 => ([.i32Const (wrapI32 v)], c)
      | .boolLit b, .i32 => ([.i32Const (if b then 1 else 0)], c)
      | .byte v, .i32 => ([.i32Const (wrapI32 v)], c)
      | _, _ => ([.internalError], c)
  | .stackMemory localId offset _ _ =>
      match lit with
      | .int v =>
          let lowerBits := wrapI64 v
          let upperBits := wrapI64 (Int.fdiv v (2 ^ 64))
          ([.getLocal localId, .i64Const lowerBits, .i64Store 8 offset,
            .getLocal localId, .i64Const upperBits, .i64Store 8 (offset + 8)], c)
      | .str s =>
          if s.length < 8 then
            ([.getLocal localId, .i64Const (packShortStr s), .i64Store 4 offset], c)
          else
            let lk := lookupStringConstant s sym c
            match lk.1 with
            | some (linkerSymIndex, elementsAddr) =>
                ([.getLocal localId, .i32ConstMemAddr elementsAddr linkerSymIndex,
                  .i32Store 4 offset, .getLocal localId,
                  .i32Const (wrapI32 s.length), .i32Store 4 (offset + 4)], lk.2)
            | none => ([.internalError], lk.2)
      | _ => ([.internalError], c)
  | _ => ([.internalError], c)

/-- Modelled from the spec: `UnionLayout::tag_is_null` (not under
`src/`): only the distinguished tag of a nullable representation is
null. -/
def UnionLayout.tagIsNull : UnionLayout → Nat → Bool
  | .nullableWrapped nullableId _, tagId => nullableId == tagId
  | .nullableUnwrapped nullableId _, tagId => nullableId == decide (tagId ≠ 0)
  | _, _ => false

/-- Modelled from the spec: whether the discriminant of a recursive-ish
union fits in the low bits of the pointer (the upstream threshold compares
the tag count with the pointer size). -/
def storesTagIdInPointerBits (tags : List (List Layout)) : Bool :=
  tags.length < PTR_SIZE

/-- Modelled from the spec: `UnionLayout::stores_tag_id_as_data` (not
under `src/`): non-recursive unions always store the discriminant as a
trailing data field; recursive and nullable-wrapped unions do so exactly
when it does not fit in the pointer; unwrapped representations never
store one. -/
def UnionLayout.storesTagIdAsData : UnionLayout → Bool
  | .nonRecursive _ => true
  | .recursive tags => !storesTagIdInPointerBits tags
  | .nullableWrapped _ otherTags => !storesTagIdInPointerBits otherTags
  | .nonNullableUnwrapped _ => false
  | .nullableUnwrapped _ _ => false

/-- Modelled from the spec: `UnionLayout::stores_tag_id_in_pointer` (not
under `src/`). -/
def UnionLayout.storesTagIdInPointer : UnionLayout → Bool
  | .recursive tags => storesTagIdInPointerBits tags
  | .nullableWrapped _ otherTags => storesTagIdInPointerBits otherTags
  | _ => false

/-- The per-tag field-layout lists of a union. -/
def UnionLayout.allTags : UnionLayout → List (List Layout)
  | .nonRecursive tags => tags
  | .recursive tags => tags
  | .nonNullableUnwrapped fields => [fields]
  | .nullableWrapped _ otherTags => otherTags
  | .nullableUnwrapped _ otherFields => [otherFields]

/-- Modelled from the spec: the union's data alignment: the maximum field
alignment, at least the pointer size. -/
def UnionLayout.dataAlignment (ul : UnionLayout) : Nat :=
  ul.allTags.foldl (fun a fs => fs.foldl (fun a2 l => max a2 l.alignmentBytes) a) PTR_SIZE

/-- Modelled from the spec: `UnionLayout::data_size_and_alignment` (not
under `src/`): the widest tag payload rounded up to the union alignment,
plus a trailing discriminant field of width equal to the alignment when
the representation stores the tag id as data. -/
def UnionLayout.dataSizeAndAlignment (ul : UnionLayout) : Nat × Nat :=
  let align := ul.dataAlignment
  let maxPayload := ul.allTags.foldl (fun a fs => max a (Layout.stackSizeList fs)) 0
  let size := roundUpTo maxPayload align + (if ul.storesTagIdAsData then align else 0)
  (size, align)

/-- Modelled from the spec: the number of tags of a union. -/
def UnionLayout.numTags : UnionLayout → Nat
  | .nonRecursive tags => tags.length
  | .recursive tags => tags.length
  | .nonNullableUnwrapped _ => 1
  | .nullableWrapped _ otherTags => otherTags.length + 1
  | .nullableUnwrapped _ _ => 2

/-- Modelled from the spec: the integer width of the discriminant
(`UnionLayout::tag_id_builtin`, not under `src/`), by tag count. -/
inductive TagIdWidth where
  | w8 | w16 | w32 | w64
deriving DecidableEq, Repr

/-- Modelled from the spec: discriminant width selection by tag count. -/
def UnionLayout.tagIdWidth (ul : UnionLayout) : TagIdWidth :=
  if ul.numTags ≤ 256 then .w8
  else if ul.numTags ≤ 65536 then .w16
  else .w32

/-- `build_get_tag_id` (backend.rs): a single-tag union yields constant 0;
nullable representations test the value against zero first, producing the
statically known nullable id; otherwise the discriminant is read from the
trailing data field or extracted from the pointer's low 2 bits. -/
def buildGetTagId (structSym : Nat) (ul : UnionLayout) (c : Ctx) : List Instr × Ctx :=
  match ul with
  | .nonNullableUnwrapped _ => ([.i32Const 0], c)
  | _ =>
    let head : List Instr × Bool :=
      match ul with
      | .nullableWrapped nullableId _ =>
          ([Instr.loadSymbol structSym, .i32Eqz, .ifI (.value .i32),
            .i32Const (wrapI32 nullableId), .elseI], true)
      | .nullableUnwrapped nullableId _ =>
          ([Instr.loadSymbol structSym, .i32Eqz, .ifI (.value .i32),
            .i32Const (if nullableId then 1 else 0), .elseI,
            .i32Const (if nullableId then 0 else 1), .endI], false)
      | _ => ([], false)
    let midCode :=
      if ul.storesTagIdAsData then
        let idOffset := ul.dataSizeAndAlignment.1 - ul.dataSizeAndAlignment.2
        [Instr.loadSymbol structSym,
         match ul.tagIdWidth with
         | .w8 => Instr.i32Load8u ul.dataSizeAndAlignment.2 idOffset
         | .w16 => Instr.i32Load16u ul.dataSizeAndAlignment.2 idOffset
         | .w32 => Instr.i32Load ul.dataSizeAndAlignment.2 idOffset
         | .w64 => Instr.i64Load ul.dataSizeAndAlignment.2 idOffset]
      else if ul.storesTagIdInPointer then
        [Instr.loadSymbol structSym, .i32Const 3, .i32And]
      else []
    (head.1 ++ midCode ++ (if head.2 then [Instr.endI] else []), c)

/-- Modelled from the spec: the alignment enum of the code builder
(`code_builder::Align`, not under `src/`). -/
inductive Align where
  | bytes1 | bytes2 | bytes4 | bytes8
deriving DecidableEq, Repr

/-- Modelled from the spec: `Align::from(u32)` (not under `src/`). -/
def Align.fromBytes : Nat → Align
  | 1 => .bytes1
  | 2 => .bytes2
  | 4 => .bytes4
  | _ => .bytes8

/-- The field-marshalling loop shared by `build_tag` and `create_struct`:
copy each field symbol's value to consecutive offsets, each field
advancing the offset by its own stored size. -/
def writeFieldsCode (localId : Nat) (c : Ctx) : List Nat → Nat → List Instr
  | [], _ => []
  | f :: rest, off =>
      .copyToMemory localId off f :: writeFieldsCode localId c rest (off + storedSize (c.storageGet f))

/-- `build_tag` (backend.rs): a null-representable tag compiles to a lone
zero constant; otherwise the fields are written to frame memory or to a
fresh refcounted heap allocation, followed by the discriminant store. -/
def buildTag (ul : UnionLayout) (tagId : Nat) (arguments : List Nat) (symbol : Nat)
    (stored : StoredValue) (c : Ctx) : List Instr × Ctx :=
  if ul.tagIsNull tagId then ([.i32Const 0], c)
  else
    let dataSize := ul.dataSizeAndAlignment.1
    let dataAlignment := ul.dataSizeAndAlignment.2
    let ensured := c.ensureValueHasLocal symbol stored
    let c1 := ensured.2.2
    let allocated : List Instr × Nat × Nat × Ctx :=
      match ensured.2.1 with
      | .stackMemory p off _ _ => (([] : List Instr), p, off, c1)
      | .local id _ =>
          let alloc := allocateWithRefcount (some dataSize) dataAlignment 1 c1
          (alloc.1 ++ [Instr.setLocal id], id, 0, alloc.2)
      | .virtualMachineStack _ => ([Instr.internalError], 0, 0, c1)
    let localId := allocated.2.1
    let dataOffset := allocated.2.2.1
    let c2 := allocated.2.2.2
    let fieldsCode := writeFieldsCode localId c2 arguments dataOffset
    let idCode :=
      if ul.storesTagIdAsData then
        let idOffset := dataOffset + dataSize - dataAlignment
        Instr.getLocal localId ::
        (match Align.fromBytes dataAlignment with
         | .bytes1 => [Instr.i32Const (wrapI32 tagId), .i32Store8 1 idOffset]
         | .bytes2 => [Instr.i32Const (wrapI32 tagId), .i32Store16 2 idOffset]
         | .bytes4 => [Instr.i32Const (wrapI32 tagId), .i32Store 4 idOffset]
         | .bytes8 => [Instr.i64Const (wrapI64 tagId), .i64Store 8 idOffset])
      else if ul.storesTagIdInPointer then
        [.getLocal localId, .i32Const (wrapI32 tagId), .i32Or, .setLocal localId]
      else []
    (ensured.1 ++ allocated.1 ++ fieldsCode ++ idCode, c2)

/-- `build_union_at_index` (backend.rs): strip the pointer-tag bits if the
representation packs the discriminant into the pointer, then read the
field at the sum of the preceding fields' stack sizes for the given tag's
field-layout list. -/
def buildUnionAtIndex (structSym : Nat) (tagId : Nat) (ul : UnionLayout) (index : Nat)
    (symbol : Nat) (c : Ctx) : List Instr × Ctx :=
  let fieldLayouts :=
    match ul with
    | .nonRecursive tags => tags.getD tagId []
    | .recursive tags => tags.getD tagId []
    | .nonNullableUnwrapped layouts => layouts
    | .nullableWrapped _ otherTags => otherTags.getD tagId []
    | .nullableUnwrapped _ otherFields => otherFields
  let fieldOffset := Layout.stackSizeList (fieldLayouts.take index)
  let ensured := c.ensureValueHasLocal structSym (c.storageGet structSym)
  let c1 := ensured.2.2
  let located : List Instr × Nat × Nat :=
    match ensured.2.1 with
    | .stackMemory p off _ _ => (([] : List Instr), p, off)
    | .local id _ => ([], id, 0)
    | .virtualMachineStack _ => ([Instr.internalError], 0, 0)
  let tagLocalId := located.2.1
  let tagOffset := located.2.2
  let masked : List Instr × Nat × Ctx :=
    if ul.storesTagIdInPointer then
      let anon := c1.createAnonymousLocal
      ([Instr.getLocal tagLocalId, .i32Const (-4), .i32And, .setLocal anon.1],
        anon.1, anon.2)
    else ([], tagLocalId, c1)
  (ensured.1 ++ located.1 ++ masked.1 ++
     [.copyFromMemory symbol masked.2.1 (tagOffset + fieldOffset)], masked.2.2)

/-- `create_struct` (backend.rs): copy each field to consecutive offsets
of the struct's frame slot; a zero-sized struct emits no code; a
struct-shaped expression with a non-struct layout clones its single
field. -/
def createStruct (sym : Nat) (layout : Layout) (fields : List Nat) (c : Ctx) :
    List Instr × Ctx :=
  let storage := c.storageGet sym
  match layout with
  | .structL _ =>
      match storage with
      | .stackMemory p off size _ =>
          if 0 < size then (writeFieldsCode p c fields off, c)
          else ([], c)
      | _ => ([.internalError], c)
  | _ =>
      let fieldStorage := c.storageGet (fields.headD 0)
      ([.cloneValue storage fieldStorage (fields.headD 0)], c)

/-- The IR expression shapes the claims exercise (`roc_mono::ir::Expr`;
the remaining shapes are fatal unsupported constructs or out-of-scope
collaborator calls). -/
inductive Expr where
  | lit (l : Literal)
  | structE (fields : List Nat)
  | structAtIndex (index : Nat) (fieldLayouts : List Layout) (structSym : Nat)
  | tag (unionLayout : UnionLayout) (tagId : Nat) (arguments : List Nat)
  | getTagId (structSym : Nat) (unionLayout : UnionLayout)
  | unionAtIndex (structSym : Nat) (tagId : Nat) (unionLayout : UnionLayout) (index : Nat)

/-- `build_expr` (backend.rs). -/
def buildExpr (sym : Nat) (e : Expr) (layout : Layout) (storage : StoredValue)
    (c : Ctx) : List Instr × Ctx :=
  match e with
  | .lit l => loadLiteral l storage sym c
  | .structE fields => createStruct sym layout fields c
  | .structAtIndex index fieldLayouts structSym =>
      match c.storageGet structSym with
      | .stackMemory p off _ _ =>
          let offset := off + Layout.stackSizeList (fieldLayouts.take index)
          ([.copyFromMemory sym p offset], c)
      | _ => ([.internalError], c)
  | .tag ul tagId args => buildTag ul tagId args sym storage c
  | .getTagId s ul => buildGetTagId s ul c
  | .unionAtIndex s tagId ul index => buildUnionAtIndex s tagId ul index sym c

/-- The IR statement shapes over which the driver's state machine runs
(`roc_mono::ir::Stmt`; `Refcounting` delegates to an out-of-scope
collaborator and is not modelled). -/
inductive Stmt where
  | letS (sym : Nat) (e : Expr) (layout : Layout) (next : Stmt)
  | ret (sym : Nat)
  | switch (condSym : Nat) (condLayout : Layout) (branches : List (Nat × Stmt))
      (defaultBranch : Stmt)
  | join (id : Nat) (params : List (Nat × Layout)) (body : Stmt) (remainder : Stmt)
  | jump (id : Nat) (args : List Nat)

/-- `matches!(cond_layout, Layout::Builtin(Builtin::Bool))`. -/
def isBoolLayout : Layout → Bool
  | .boolL => true
  | _ => false

/-- One Switch equality test: for a boolean condition, `i32.eqz` when the
branch value is zero and no test otherwise; for other conditions, a
constant of the condition's value type followed by the equality of that
width. -/
def switchTestCmp (isBool : Bool) (vt : ValueType) (value : Nat) : List Instr :=
  if isBool then
    if value = 0 then [.i32Eqz] else []
  else
    match vt with
    | .i32 => [.i32Const (wrapI32 value), .i32Eq]
    | .i64 => [.i64Const (wrapI64 value), .i64Eq]
    | .f32 => [.f32Const (value % 2 ^ 32), .f32Eq]
    | .f64 => [.f64Const (value % 2 ^ 64), .f64Eq]

/-- The Switch test loop: for the branch at position `i`, reload the
condition, apply the equality test, and `br_if i`. -/
def switchTestsCode (condSym : Nat) (isBool : Bool) (vt : ValueType) :
    Nat → List Nat → List Instr
  | _, [] => []
  | i, value :: rest =>
      Instr.loadSymbol condSym :: (switchTestCmp isBool vt value
        ++ Instr.brIf i :: switchTestsCode condSym isBool vt (i + 1) rest)

/-- `n` consecutive `start_block` calls (state part). -/
def openBlocks : Nat → Ctx → Ctx
  | 0, c => c
  | n + 1, c => openBlocks n c.startBlock

/-- The Join parameter loop: allocate each parameter's storage and force
it into a durable local before the join point is entered. -/
def allocJoinParams : List (Nat × Layout) → Ctx → List Instr × List StoredValue × Ctx
  | [], c => ([], [], c)
  | (sym, layout) :: rest, c =>
      let alloc := c.allocate (wasmLayoutOf layout) sym .variableK
      let ensured := alloc.2.ensureValueHasLocal sym alloc.1
      let more := allocJoinParams rest ensured.2.2
      (ensured.1 ++ more.1, ensured.2.1 :: more.2.1, more.2.2)

/-- The Jump argument loop: clone each argument into the corresponding
join-parameter storage, in order. -/
def jumpArgsCode (c : Ctx) : List Nat → List StoredValue → List Instr
  | a :: moreArgs, p :: moreParams =>
      .cloneValue p (c.storageGet a) a :: jumpArgsCode c moreArgs moreParams
  | _, _ => []

mutual

/-- `build_stmt` (backend.rs). -/
def buildStmt (retLayout : Layout) : Stmt → Ctx → List Instr × Ctx
  | .letS sym e layout next, c =>
      let kind := match next with
        | .ret retSym => if sym == retSym then StoredValueKind.returnValue else .variableK
        | _ => .variableK
      let alloc := c.allocate (wasmLayoutOf layout) sym kind
      let built := buildExpr sym e layout alloc.1 alloc.2
      let c3 := { built.2 with symbolLayouts := (sym, layout) :: built.2.symbolLayouts }
      let next1 := buildStmt retLayout next c3
      (built.1 ++ next1.1, next1.2)
  | .ret sym, c =>
      match c.storageGet sym with
      | .stackMemory p off size align =>
          ([.copyMemoryI p off 0 0 size align, .br (c.blockDepth - 1).toNat], c)
      | _ => ([.loadSymbol sym, .br (c.blockDepth - 1).toNat], c)
  | .switch condSym condLayout branches defaultBranch, c =>
      let ensured := c.ensureValueHasLocal condSym (c.storageGet condSym)
      let c2 := openBlocks branches.length ensured.2.2
      let testsCode := switchTestsCode condSym (isBoolLayout condLayout)
        (condValueType condLayout) 0 (branches.map Prod.fst)
      let dflt := buildStmt retLayout defaultBranch c2
      let bodies := buildBranchBodies retLayout branches dflt.2
      (ensured.1 ++ List.replicate branches.length (Instr.block .noResult) ++ testsCode
         ++ dflt.1 ++ bodies.1, bodies.2)
  | .join id params body remainder, c =>
      let allocated := allocJoinParams params c
      let c2 := allocated.2.2.startBlock
      let c3 := { c2 with joinpoints := (id, (c2.blockDepth, allocated.2.1)) :: c2.joinpoints }
      let rem := buildStmt retLayout remainder c3
      let loopBlockType :=
        match (wasmLayoutOf retLayout).returnMethod with
        | .primitive ty => BlockType.value ty
        | .writeToPointerArg => BlockType.noResult
        | .noReturnValue => BlockType.noResult
      let bodyPart := buildStmt retLayout body rem.2.endBlock.startBlock
      (allocated.1 ++ Instr.block .noResult :: rem.1
         ++ Instr.endI :: Instr.loopI loopBlockType :: bodyPart.1 ++ [Instr.endI],
        bodyPart.2.endBlock)
  | .jump id args, c =>
      match c.joinpoints.lookup id with
      | some (target, paramStorages) =>
          (jumpArgsCode c args paramStorages ++ [.br (c.blockDepth - target).toNat], c)
      | none => ([.internalError], c)

/-- The Switch body loop: in original branch order, close one block, then
emit that branch's body immediately after its own close. -/
def buildBranchBodies (retLayout : Layout) : List (Nat × Stmt) → Ctx → List Instr × Ctx
  | [], c => ([], c)
  | (_, b) :: rest, c =>
      let built := buildStmt retLayout b c.endBlock
      let more := buildBranchBodies retLayout rest built.2
      (Instr.endI :: (built.1 ++ more.1), more.2)

end

/-- A procedure of the input IR (`roc_mono::ir::Proc`, restricted to the
fields the backend reads). -/
structure Proc where
  args : List (Layout × Nat)
  retLayout : Layout
  body : Stmt

/-- The argument-allocation loop of `start_proc`. -/
def allocParams : List (Layout × Nat) → Ctx → Ctx
  | [], c => c
  | (layout, sym) :: rest, c =>
      let (_, c1) := c.allocate (wasmLayoutOf layout) sym .parameter
      allocParams rest c1

/-- `start_proc` (backend.rs): determine the return method, open the
single wrapper block that every `Ret` branches to, allocate the
parameters, and record the function signature. -/
def startProc (p : Proc) (c : Ctx) : List Instr × Ctx :=
  let retType : Option ValueType :=
    match (wasmLayoutOf p.retLayout).returnMethod with
    | .primitive ty => some ty
    | .noReturnValue => none
    | .writeToPointerArg => none
  let c1 :=
    match (wasmLayoutOf p.retLayout).returnMethod with
    | .writeToPointerArg => { c with argTypes := c.argTypes ++ [PTR_TYPE] }
    | _ => c
  let c2 := allocParams p.args c1.startBlock
  let c3 := { c2 with signatures := c2.signatures ++ [(c2.argTypes, retType)] }
  ([Instr.block (match retType with | some ty => .value ty | none => .noResult)], c3)

/-- `finalize_proc` (backend.rs): close the wrapper block from
`start_proc`.  The locals declaration and frame push/pop code that
`build_fn_header` prepends is outside the instruction stream modelled
here. -/
def finalizeProc (c : Ctx) : List Instr × Ctx :=
  ([Instr.endI], c.endBlock)

/-- `reset` (backend.rs): clear the function-level state between
procedures (the source also asserts that the block depth is back to
zero, which claim C9 proves). -/
def Ctx.reset (c : Ctx) : Ctx :=
  { c with nextLocal := 0, framePtr := 0, frameOffset := 0, storage := [],
           symbolLayouts := [], joinpoints := [], argTypes := [] }

/-- `build_proc` (backend.rs). -/
def buildProc (p : Proc) (c : Ctx) : List Instr × Ctx :=
  let started := startProc p c
  let body := buildStmt p.retLayout p.body started.2
  let finished := finalizeProc body.2
  (started.1 ++ body.1 ++ finished.1, finished.2.reset)

/-- Modelled from the spec: export kinds (`wasm_module::ExportType`). -/
inductive ExportType where
  | func | table | mem | globalE
deriving DecidableEq, Repr

/-- Modelled from the spec: a module export entry. -/
structure Export where
  name : String
  ty : ExportType
  index : Nat
deriving DecidableEq, Repr

/-- Modelled from the spec: a module global entry with its type,
mutability and constant initializer. -/
structure GlobalM where
  valueType : ValueType
  isMutable : Bool
  init : Int
deriving DecidableEq, Repr

/-- Modelled from the spec: the fixed memory export name (`MEMORY_NAME`,
not under `src/`). -/
def MEMORY_NAME : String := "memory"

/-- Modelled from the spec: the fixed stack pointer export name
(`STACK_POINTER_NAME`, not under `src/`). -/
def STACK_POINTER_NAME : String := "__stack_pointer"

/-- Modelled from the spec: the global index of the stack pointer
(`STACK_POINTER_GLOBAL_ID`, not under `src/`). -/
def STACK_POINTER_GLOBAL_ID : Nat := 0

/-- `MEMORY_INIT_SIZE` (backend.rs, `WasmBackend::new`). -/
def MEMORY_INIT_SIZE : Nat := 1024 * 1024

/-- The module-level sections `WasmBackend::new` constructs, restricted
to the fields the claims concern. -/
structure ModuleState where
  memoryInitSize : Nat
  globals : List GlobalM
  exports : List Export
  linkerSymbols : List SymInfo
  dataSegmentOffset : Nat
  dataSegmentInit : List Nat

/-- `WasmBackend::new` (backend.rs): push the memory export, create the
mutable stack-pointer global initialized to the initial memory size,
export it under the fixed name, register its weakly bound linker symbol,
and set up the constants data segment at the fixed base address. -/
def wasmBackendNew (exports : List Export) (linkerSymbols : List SymInfo) : ModuleState :=
  let exports1 := exports ++ [⟨MEMORY_NAME, .mem, 0⟩]
  let stackPointer : GlobalM := ⟨.i32, true, (MEMORY_INIT_SIZE : Int)⟩
  let exports2 := exports1 ++ [⟨STACK_POINTER_NAME, .globalE, STACK_POINTER_GLOBAL_ID⟩]
  let linkerSymbols1 := linkerSymbols ++
    [SymInfo.global (.defined WASM_SYM_BINDING_WEAK STACK_POINTER_GLOBAL_ID STACK_POINTER_NAME)]
  { memoryInitSize := MEMORY_INIT_SIZE
    globals := [stackPointer]
    exports := exports2
    linkerSymbols := linkerSymbols1
    dataSegmentOffset := CONST_SEGMENT_BASE_ADDR
    dataSegmentInit := [] }

/-! ## General lemmas about the embedding -/

theorem wrapI32_eq_self {v : Int} (h1 : -(2 ^ 31) ≤ v) (h2 : v < 2 ^ 31) :
    wrapI32 v = v := by
  have e31 : (2 : Int) ^ 31 = 2147483648 := by norm_num
  have e32 : (2 : Int) ^ 32 = 4294967296 := by norm_num
  simp only [wrapI32, e31, e32] at *
  omega

theorem wrapI64_eq_self {v : Int} (h1 : -(2 ^ 63) ≤ v) (h2 : v < 2 ^ 63) :
    wrapI64 v = v := by
  have e63 : (2 : Int) ^ 63 = 9223372036854775808 := by norm_num
  have e64 : (2 : Int) ^ 64 = 18446744073709551616 := by norm_num
  simp only [wrapI64, e63, e64] at *
  omega

theorem callZigBuiltin_nextLocal (c : Ctx) (name : String) (pt : List ValueType)
    (rt : Option ValueType) : (c.callZigBuiltin name pt rt).2.nextLocal = c.nextLocal := by
  unfold Ctx.callZigBuiltin
  cases h : c.builtinMap.lookup name with
  | none => rfl
  | some i =>
      simp only
      cases hg : c.linkerSymbols.get? i with
      | none => rfl
      | some si => cases si with
        | function ws => cases ws <;> rfl
        | data d => rfl
        | global ws => rfl

theorem callZigBuiltin_code (c : Ctx) (name : String) (pt : List ValueType)
    (rt : Option ValueType)
    (h : ∀ i, c.builtinMap.lookup name = some i →
      ∃ fl idx, c.linkerSymbols.get? i = some (.function (.imported fl idx))) :
    ∃ fnIndex symIndex,
      (c.callZigBuiltin name pt rt).1 = [.call fnIndex symIndex pt.length rt.isSome] := by
  unfold Ctx.callZigBuiltin
  cases hl : c.builtinMap.lookup name with
  | none => exact ⟨c.numImports, c.linkerSymbols.length, rfl⟩
  | some i =>
      obtain ⟨fl, idx, hg⟩ := h i hl
      refine ⟨idx, i, ?_⟩
      simp only [List.get?_eq_getElem?] at hg
      simp [hg]

/-! ## Claim C1 -/

/-- C1: for every call to `allocate_with_refcount` with compile-time data
size `s`, alignment `a` and initial refcount `c0` (in the `i32`
representable ranges), the header width is `max a PTR_SIZE` with
`PTR_SIZE = 4`; the allocator is called with size `s + header width` and
alignment `a` (the two preceding constants); the value
`c0 - 1 + INT32_MIN` is stored as a 32-bit word at offset
`header width - PTR_SIZE` from the allocation base; and the code leaves
`base + header width` on the operand stack. -/
theorem c1_allocate_with_refcount (ctx : Ctx) (s a c0 : Nat)
    (hbuiltin : ∀ i, ctx.builtinMap.lookup "roc_alloc" = some i →
      ∃ fl idx, ctx.linkerSymbols.get? i = some (.function (.imported fl idx)))
    (hs : (s : Int) + ((max a PTR_SIZE : Nat) : Int) < 2 ^ 31)
    (ha : (a : Int) < 2 ^ 31)
    (hc1 : 1 ≤ c0) (hc2 : (c0 : Int) < 2 ^ 31) :
    ∃ fnIndex symIndex,
      (allocateWithRefcount (some s) a c0 ctx).1 =
        [.i32Const ((s : Int) + ((max a PTR_SIZE : Nat) : Int)),
         .i32Const (a : Int),
         .call fnIndex symIndex 2 true,
         .setLocal ctx.nextLocal,
         .getLocal ctx.nextLocal,
         .i32Const ((c0 : Int) - 1 + -(2 ^ 31)),
         .i32Store 4 (max a PTR_SIZE - PTR_SIZE),
         .getLocal ctx.nextLocal,
         .i32Const ((max a PTR_SIZE : Nat) : Int),
         .i32Add] := by
  obtain ⟨fnIndex, symIndex, hcode⟩ :=
    callZigBuiltin_code ctx "roc_alloc" [.i32, .i32] (some .i32) hbuiltin
  refine ⟨fnIndex, symIndex, ?_⟩
  have e31 : (2 : Int) ^ 31 = 2147483648 := by norm_num
  rw [e31] at hs ha hc2
  have h2 : wrapI32 (a : Int) = (a : Int) := by
    apply wrapI32_eq_self <;> rw [e31] <;> omega
  have h3 : wrapI32 (c0 : Int) = (c0 : Int) := by
    apply wrapI32_eq_self <;> rw [e31] <;> omega
  have hs' : (s : Int) + ((a : Int) ⊔ 4) < 2147483648 := by
    rw [Nat.cast_max] at hs
    simpa [PTR_SIZE] using hs
  have hb1 : wrapI32 ((s : Int) + ((a : Int) ⊔ 4)) = (s : Int) + ((a : Int) ⊔ 4) := by
    apply wrapI32_eq_self <;> rw [e31] <;> omega
  have hb2 : wrapI32 ((a : Int) ⊔ 4) = (a : Int) ⊔ 4 := by
    apply wrapI32_eq_self <;> rw [e31] <;> omega
  have hb3 : wrapI32 ((c0 : Int) - 1 + -2147483648) = (c0 : Int) - 1 + -2147483648 := by
    apply wrapI32_eq_self <;> rw [e31] <;> omega
  simp [allocateWithRefcount, Ctx.createAnonymousLocal, hcode,
    callZigBuiltin_nextLocal, h2, h3, PTR_SIZE, hb1, hb2, hb3]

/-- Witness for C1 at the claim's concrete instance
`allocate_with_refcount(size = 16, align = 8, initial = 1)`: the header
width is 8, the allocator receives size 24 and alignment 8, `INT32_MIN`
is stored at offset 4, and `base + 8` is left on the stack. -/
theorem c1_allocate_with_refcount_witness :
    ∃ fnIndex symIndex,
      (allocateWithRefcount (some 16) 8 1 {}).1 =
        [.i32Const ((16 : Int) + ((max 8 PTR_SIZE : Nat) : Int)),
         .i32Const (8 : Int),
         .call fnIndex symIndex 2 true,
         .setLocal (0 : Nat),
         .getLocal (0 : Nat),
         .i32Const ((1 : Int) - 1 + -(2 ^ 31)),
         .i32Store 4 (max 8 PTR_SIZE - PTR_SIZE),
         .getLocal (0 : Nat),
         .i32Const ((max 8 PTR_SIZE : Nat) : Int),
         .i32Add] :=
  c1_allocate_with_refcount {} 16 8 1
    (by intro i h; simp [Ctx.builtinMap] at h)
    (by norm_num [PTR_SIZE]) (by norm_num) (by norm_num) (by norm_num)

/-! ## Claim C10 -/

/-- C10: module construction creates exactly one global — the mutable I32
stack pointer initialized to `1024 * 1024`, the initial memory size —
exports it under the fixed stack-pointer name at its global index, and
appends its linker symbol with the weak binding flag (value 1), so that a
definition from an externally linked object file takes precedence. -/
theorem c10_wasm_backend_new (exports : List Export) (linkerSymbols : List SymInfo) :
    (wasmBackendNew exports linkerSymbols).globals =
        [⟨.i32, true, ((1024 * 1024 : Nat) : Int)⟩]
    ∧ (wasmBackendNew exports linkerSymbols).memoryInitSize = 1024 * 1024
    ∧ (wasmBackendNew exports linkerSymbols).exports =
        exports ++ [⟨MEMORY_NAME, .mem, 0⟩,
                    ⟨STACK_POINTER_NAME, .globalE, STACK_POINTER_GLOBAL_ID⟩]
    ∧ (wasmBackendNew exports linkerSymbols).linkerSymbols =
        linkerSymbols ++ [.global (.defined WASM_SYM_BINDING_WEAK
          STACK_POINTER_GLOBAL_ID STACK_POINTER_NAME)]
    ∧ WASM_SYM_BINDING_WEAK = 1 := by
  refine ⟨?_, rfl, ?_, rfl, rfl⟩
  · simp [wasmBackendNew, MEMORY_INIT_SIZE]
  · simp [wasmBackendNew]

/-! ## Claim C6 -/

theorem listLeVal_lt (s : List Nat) : listLeVal s < 256 ^ s.length := by
  induction s with
  | nil => simp [listLeVal]
  | cons b rest ih =>
      have hb : b % 256 < 256 := Nat.mod_lt _ (by norm_num)
      simp only [listLeVal, List.length_cons, pow_succ]
      omega

theorem listLeVal_digit (s : List Nat) :
    ∀ i, i < s.length → listLeVal s / 256 ^ i % 256 = s.getD i 0 % 256 := by
  induction s with
  | nil => intro i h; simp at h
  | cons b rest ih =>
      intro i h
      match i with
      | 0 => simp [listLeVal, Nat.add_mul_mod_self_left]
      | j + 1 =>
          have hb : b % 256 < 256 := Nat.mod_lt _ (by norm_num)
          have hdiv : listLeVal (b :: rest) / 256 = listLeVal rest := by
            simp only [listLeVal]
            rw [Nat.add_mul_div_left _ _ (by norm_num : 0 < 256)]
            simp [Nat.div_eq_of_lt hb]
          have hstep : listLeVal (b :: rest) / 256 ^ (j + 1) =
              listLeVal rest / 256 ^ j := by
            rw [pow_succ, mul_comm, ← Nat.div_div_eq_div_mul, hdiv]
          rw [hstep]
          simp only [List.getD_cons_succ]
          exact ih j (by simpa using h)

/-- C6: a string literal shorter than 8 bytes stored to a frame slot
compiles to a single 8-byte (`i64`) store of a packed value, with the
module-level state (constant segment, constant map, linker symbols)
unchanged; the packed value carries `0x80 + len` (`= 0x80 | len`) in its
final byte and the string bytes in the low positions. -/
theorem c6_short_string_literal (ctx : Ctx) (s : List Nat)
    (l off size align sym : Nat) (hlen : s.length < 8) :
    loadLiteral (.str s) (.stackMemory l off size align) sym ctx =
      ([.getLocal l, .i64Const (packShortStr s), .i64Store 4 off], ctx)
    ∧ (listLeVal s + (128 + s.length) * 256 ^ 7) / 256 ^ 7 = 128 + s.length
    ∧ (∀ i, i < s.length →
        (listLeVal s + (128 + s.length) * 256 ^ 7) / 256 ^ i % 256 = s.getD i 0 % 256) := by
  refine ⟨by simp [loadLiteral, hlen], ?_, ?_⟩
  · have h1 : listLeVal s < 256 ^ 7 :=
      lt_of_lt_of_le (listLeVal_lt s)
        (Nat.pow_le_pow_right (by norm_num) (by omega))
    rw [Nat.add_mul_div_right _ _ (by positivity : 0 < 256 ^ 7), Nat.div_eq_of_lt h1]
    omega
  · intro i hi
    obtain ⟨k, hk⟩ : ∃ k, 7 - i = k + 1 := ⟨6 - i, by omega⟩
    have hsplit : (128 + s.length) * 256 ^ 7 =
        (128 + s.length) * 256 ^ k * 256 * 256 ^ i := by
      have h7 : 7 = i + (k + 1) := by omega
      rw [h7, pow_add, pow_succ]
      ring
    rw [hsplit, Nat.add_mul_div_right _ _ (by positivity : 0 < 256 ^ i),
      Nat.add_mul_mod_self_right]
    exact listLeVal_digit s i hi

/-- Witness for C6 at the two-byte string `"hi"` (`[104, 105]`) stored at
frame offset 0 through local 3. -/
theorem c6_short_string_literal_witness :
    ([104, 105] : List Nat).length < 8
    ∧ (loadLiteral (.str [104, 105]) (.stackMemory 3 0 8 4) 7 {} =
        ([.getLocal 3, .i64Const (packShortStr [104, 105]), .i64Store 4 0], {})
      ∧ (listLeVal [104, 105] + (128 + ([104, 105] : List Nat).length) * 256 ^ 7) / 256 ^ 7 =
          128 + ([104, 105] : List Nat).length
      ∧ (∀ i, i < ([104, 105] : List Nat).length →
          (listLeVal [104, 105] + (128 + ([104, 105] : List Nat).length) * 256 ^ 7) / 256 ^ i % 256 =
            ([104, 105] : List Nat).getD i 0 % 256)) :=
  ⟨by norm_num, c6_short_string_literal {} [104, 105] 3 0 8 4 7 (by norm_num)⟩

/-! ## Claim C4 -/

/-- A concrete context for the C4 counterexample: symbol 1 is a struct in
a frame slot addressed through local 9 at offset 0. -/
def c4Ctx : Ctx :=
  { storage := [(1, .stackMemory 9 0 16 8)] }

/-- Counterexample to C4 as stated: for field layouts `[I32, I64, I32]`
the claim puts field 1 at byte offset 8 (alignment-respecting, with
padding before the 8-byte field), but the generated access for index 1
reads at offset 4 = `stack_size(I32)`: the code sums the preceding
fields' sizes without inserting padding. -/
theorem c4_counterexample :
    (buildExpr 2 (.structAtIndex 1 [.int32, .int64, .int32] 1) (.structL [.int32, .int64, .int32])
        (.virtualMachineStack .i64) c4Ctx).1 = [.copyFromMemory 2 9 4]
    ∧ [Instr.copyFromMemory 2 9 4] ≠ [Instr.copyFromMemory 2 9 8] := by
  constructor
  · rfl
  · decide

/-- C4 (amended): for every `StructAtIndex` access to a structure in a
frame slot, the byte offset of field `k` is the slot offset plus the sum
of the stack sizes of the preceding fields, with no alignment padding
inserted; `UnionAtIndex` reads analogously at the sum of the preceding
fields' sizes of the given tag's field-layout list.  In particular, for
field layouts `[I32, I64, I32]` the field byte offsets are `[0, 4, 12]`,
not `[0, 8, 16]`. -/
theorem c4_field_offsets (ctx : Ctx) (sym index p off size align structSym : Nat)
    (fieldLayouts : List Layout) (lay : Layout) (stg : StoredValue)
    (h : ctx.storageGet structSym = .stackMemory p off size align) :
    buildExpr sym (.structAtIndex index fieldLayouts structSym) lay stg ctx =
      ([.copyFromMemory sym p (off + Layout.stackSizeList (fieldLayouts.take index))], ctx)
    ∧ (∀ tagId uidx usym (fields : List Layout),
        buildUnionAtIndex structSym tagId (.nonNullableUnwrapped fields) uidx usym ctx =
          ([.copyFromMemory usym p (off + Layout.stackSizeList (fields.take uidx))], ctx))
    ∧ Layout.stackSizeList ([Layout.int32, .int64, .int32].take 0) = 0
    ∧ Layout.stackSizeList ([Layout.int32, .int64, .int32].take 1) = 4
    ∧ Layout.stackSizeList ([Layout.int32, .int64, .int32].take 2) = 12 := by
  refine ⟨?_, ?_, rfl, rfl, rfl⟩
  · simp [buildExpr, h]
  · intro tagId uidx usym fields
    simp [buildUnionAtIndex, h, Ctx.ensureValueHasLocal,
      UnionLayout.storesTagIdInPointer, Nat.add_comm]

/-- Witness for C4 (amended) at the counterexample context. -/
theorem c4_field_offsets_witness :
    c4Ctx.storageGet 1 = .stackMemory 9 0 16 8
    ∧ (buildExpr 2 (.structAtIndex 2 [.int32, .int64, .int32] 1)
          (.structL [.int32, .int64, .int32]) (.virtualMachineStack .i64) c4Ctx =
        ([.copyFromMemory 2 9 (0 + Layout.stackSizeList
            (([Layout.int32, .int64, .int32]).take 2))], c4Ctx)
      ∧ (∀ tagId uidx usym (fields : List Layout),
          buildUnionAtIndex 1 tagId (.nonNullableUnwrapped fields) uidx usym c4Ctx =
            ([.copyFromMemory usym 9 (0 + Layout.stackSizeList (fields.take uidx))], c4Ctx))
      ∧ Layout.stackSizeList ([Layout.int32, .int64, .int32].take 0) = 0
      ∧ Layout.stackSizeList ([Layout.int32, .int64, .int32].take 1) = 4
      ∧ Layout.stackSizeList ([Layout.int32, .int64, .int32].take 2) = 12) :=
  ⟨rfl, c4_field_offsets c4Ctx 2 2 9 0 16 8 1 [.int32, .int64, .int32]
    (.structL [.int32, .int64, .int32]) (.virtualMachineStack .i64) rfl⟩

/-! ## Claim C8 -/

/-- C8: (1) building a null-representable tag emits exactly one
instruction — a zero constant — and leaves the whole backend state
untouched (so no allocation and no allocator call happens); (2)
`GetTagId` on a single-tag (non-nullable-unwrapped) union emits a
constant 0; (3) on a nullable-wrapped union, `GetTagId` first compares
the value to zero and yields the statically known nullable tag id in the
then-branch without any memory access, the else-branch reading the
discriminant either from the trailing data field or by masking the
pointer's low 2 bits (`and` with 3); (4) on a nullable-unwrapped union
the same zero comparison selects between the two constant tag ids, with
no memory load at all. -/
theorem c8_tag_discriminants :
    (∀ (ul : UnionLayout) (tagId : Nat) (args : List Nat) (symbol : Nat)
       (stored : StoredValue) (ctx : Ctx),
       ul.tagIsNull tagId = true →
       buildTag ul tagId args symbol stored ctx = ([.i32Const 0], ctx))
    ∧ (∀ (fields : List Layout) (structSym : Nat) (ctx : Ctx),
       buildGetTagId structSym (.nonNullableUnwrapped fields) ctx = ([.i32Const 0], ctx))
    ∧ (∀ (nid : Nat) (tags : List (List Layout)) (structSym : Nat) (ctx : Ctx),
       nid < 2 ^ 16 →
       ∃ mid, buildGetTagId structSym (.nullableWrapped nid tags) ctx =
          ([.loadSymbol structSym, .i32Eqz, .ifI (.value .i32),
            .i32Const (nid : Int), .elseI] ++ mid ++ [.endI], ctx)
         ∧ (mid = [.loadSymbol structSym, .i32Const 3, .i32And]
            ∨ ∃ al o, mid = [.loadSymbol structSym, .i32Load8u al o]
                ∨ mid = [.loadSymbol structSym, .i32Load16u al o]
                ∨ mid = [.loadSymbol structSym, .i32Load al o]
                ∨ mid = [.loadSymbol structSym, .i64Load al o]))
    ∧ (∀ (nid : Bool) (fields : List Layout) (structSym : Nat) (ctx : Ctx),
       buildGetTagId structSym (.nullableUnwrapped nid fields) ctx =
         ([.loadSymbol structSym, .i32Eqz, .ifI (.value .i32),
           .i32Const (if nid then 1 else 0), .elseI,
           .i32Const (if nid then 0 else 1), .endI], ctx)) := by
  refine ⟨?_, ?_, ?_, ?_⟩
  · intro ul tagId args symbol stored ctx h
    simp [buildTag, h]
  · intro fields structSym ctx
    rfl
  · intro nid tags structSym ctx hnid
    have hn : wrapI32 (nid : Int) = (nid : Int) := by
      apply wrapI32_eq_self
      · have : (0 : Int) ≤ (nid : Int) := Int.natCast_nonneg nid
        have : (0 : Int) < 2 ^ 31 := by positivity
        omega
      · have h16 : (nid : Int) < 2 ^ 16 := by exact_mod_cast hnid
        have : (2 : Int) ^ 16 < 2 ^ 31 := by norm_num
        omega
    cases hbits : storesTagIdInPointerBits tags with
    | true =>
        refine ⟨[.loadSymbol structSym, .i32Const 3, .i32And], ?_, Or.inl rfl⟩
        simp [buildGetTagId, UnionLayout.storesTagIdAsData,
          UnionLayout.storesTagIdInPointer, hbits, hn]
    | false =>
        cases hw : (UnionLayout.nullableWrapped nid tags).tagIdWidth with
        | w8 =>
            refine ⟨[.loadSymbol structSym, .i32Load8u
              (UnionLayout.nullableWrapped nid tags).dataSizeAndAlignment.2
              ((UnionLayout.nullableWrapped nid tags).dataSizeAndAlignment.1 -
                (UnionLayout.nullableWrapped nid tags).dataSizeAndAlignment.2)], ?_,
              Or.inr ⟨_, _, Or.inl rfl⟩⟩
            simp [buildGetTagId, UnionLayout.storesTagIdAsData,
              UnionLayout.storesTagIdInPointer, hbits, hn, hw]
        | w16 =>
            refine ⟨[.loadSymbol structSym, .i32Load16u
              (UnionLayout.nullableWrapped nid tags).dataSizeAndAlignment.2
              ((UnionLayout.nullableWrapped nid tags).dataSizeAndAlignment.1 -
                (UnionLayout.nullableWrapped nid tags).dataSizeAndAlignment.2)], ?_,
              Or.inr ⟨_, _, Or.inr (Or.inl rfl)⟩⟩
            simp [buildGetTagId, UnionLayout.storesTagIdAsData,
              UnionLayout.storesTagIdInPointer, hbits, hn, hw]
        | w32 =>
            refine ⟨[.loadSymbol structSym, .i32Load
              (UnionLayout.nullableWrapped nid tags).dataSizeAndAlignment.2
              ((UnionLayout.nullableWrapped nid tags).dataSizeAndAlignment.1 -
                (UnionLayout.nullableWrapped nid tags).dataSizeAndAlignment.2)], ?_,
              Or.inr ⟨_, _, Or.inr (Or.inr (Or.inl rfl))⟩⟩
            simp [buildGetTagId, UnionLayout.storesTagIdAsData,
              UnionLayout.storesTagIdInPointer, hbits, hn, hw]
        | w64 =>
            refine ⟨[.loadSymbol structSym, .i64Load
              (UnionLayout.nullableWrapped nid tags).dataSizeAndAlignment.2
              ((UnionLayout.nullableWrapped nid tags).dataSizeAndAlignment.1 -
                (UnionLayout.nullableWrapped nid tags).dataSizeAndAlignment.2)], ?_,
              Or.inr ⟨_, _, Or.inr (Or.inr (Or.inr rfl))⟩⟩
            simp [buildGetTagId, UnionLayout.storesTagIdAsData,
              UnionLayout.storesTagIdInPointer, hbits, hn, hw]
  · intro nid fields structSym ctx
    rfl

/-- Witness for C8: the null tag (id 0) of a nullable-unwrapped union, a
single-tag union, a 2-tag nullable-wrapped union (discriminant in the
pointer bits under the modelled threshold), and a nullable-unwrapped
`GetTagId`, all at concrete arguments. -/
theorem c8_tag_discriminants_witness :
    ((UnionLayout.nullableUnwrapped false [.int32]).tagIsNull 0 = true
      ∧ buildTag (.nullableUnwrapped false [.int32]) 0 [] 5 (.local 1 .i32) {} =
          ([.i32Const 0], {}))
    ∧ buildGetTagId 6 (.nonNullableUnwrapped [.int64]) {} = ([.i32Const 0], {})
    ∧ (∃ mid, buildGetTagId 6 (.nullableWrapped 0 [[Layout.int32]]) {} =
        ([.loadSymbol 6, .i32Eqz, .ifI (.value .i32), .i32Const (0 : Int), .elseI]
           ++ mid ++ [.endI], {})
        ∧ (mid = [.loadSymbol 6, .i32Const 3, .i32And]
           ∨ ∃ al o, mid = [.loadSymbol 6, .i32Load8u al o]
               ∨ mid = [.loadSymbol 6, .i32Load16u al o]
               ∨ mid = [.loadSymbol 6, .i32Load al o]
               ∨ mid = [.loadSymbol 6, .i64Load al o]))
    ∧ buildGetTagId 6 (.nullableUnwrapped true [.int32]) {} =
        ([.loadSymbol 6, .i32Eqz, .ifI (.value .i32), .i32Const 1, .elseI,
          .i32Const 0, .endI], {}) := by
  refine ⟨⟨by decide, ?_⟩, ?_, ?_, ?_⟩
  · exact c8_tag_discriminants.1 (.nullableUnwrapped false [.int32]) 0 [] 5
      (.local 1 .i32) {} (by decide)
  · exact c8_tag_discriminants.2.1 [.int64] 6 {}
  · exact c8_tag_discriminants.2.2.1 0 [[Layout.int32]] 6 {} (by norm_num)
  · have h := c8_tag_discriminants.2.2.2 true [.int32] 6 {}
    simpa using h

/-! ## Block-depth bookkeeping lemmas

Expression lowering never touches the block depth, the depth-ok flag, or
the open/close counters; only `start_block`, `start_loop` and `end_block`
do.  The following lemmas record this for every expression-level
emission function. -/

@[simp] theorem ensureValueHasLocal_cf (c : Ctx) (sym : Nat) (sv : StoredValue) :
    (c.ensureValueHasLocal sym sv).2.2.blockDepth = c.blockDepth
    ∧ (c.ensureValueHasLocal sym sv).2.2.depthOk = c.depthOk
    ∧ (c.ensureValueHasLocal sym sv).2.2.opens = c.opens
    ∧ (c.ensureValueHasLocal sym sv).2.2.closes = c.closes := by
  cases sv <;> exact ⟨rfl, rfl, rfl, rfl⟩

@[simp] theorem allocate_cf (c : Ctx) (wl : WasmLayout) (sym : Nat)
    (kind : StoredValueKind) :
    (c.allocate wl sym kind).2.blockDepth = c.blockDepth
    ∧ (c.allocate wl sym kind).2.depthOk = c.depthOk
    ∧ (c.allocate wl sym kind).2.opens = c.opens
    ∧ (c.allocate wl sym kind).2.closes = c.closes := by
  cases wl <;> cases kind <;> exact ⟨rfl, rfl, rfl, rfl⟩

@[simp] theorem callZigBuiltin_cf (c : Ctx) (name : String) (pt : List ValueType)
    (rt : Option ValueType) :
    (c.callZigBuiltin name pt rt).2.blockDepth = c.blockDepth
    ∧ (c.callZigBuiltin name pt rt).2.depthOk = c.depthOk
    ∧ (c.callZigBuiltin name pt rt).2.opens = c.opens
    ∧ (c.callZigBuiltin name pt rt).2.closes = c.closes := by
  unfold Ctx.callZigBuiltin
  cases h : c.builtinMap.lookup name with
  | none => exact ⟨rfl, rfl, rfl, rfl⟩
  | some i =>
      simp only
      cases hg : c.linkerSymbols.get? i with
      | none => exact ⟨rfl, rfl, rfl, rfl⟩
      | some si => cases si with
        | function ws => cases ws <;> exact ⟨rfl, rfl, rfl, rfl⟩
        | data d => exact ⟨rfl, rfl, rfl, rfl⟩
        | global ws => exact ⟨rfl, rfl, rfl, rfl⟩

@[simp] theorem allocateWithRefcount_cf (sz : Option Nat) (a i : Nat) (c : Ctx) :
    (allocateWithRefcount sz a i c).2.blockDepth = c.blockDepth
    ∧ (allocateWithRefcount sz a i c).2.depthOk = c.depthOk
    ∧ (allocateWithRefcount sz a i c).2.opens = c.opens
    ∧ (allocateWithRefcount sz a i c).2.closes = c.closes := by
  simp [allocateWithRefcount, Ctx.createAnonymousLocal]

@[simp] theorem lookupStringConstant_cf (s : List Nat) (sym : Nat) (c : Ctx) :
    (lookupStringConstant s sym c).2.blockDepth = c.blockDepth
    ∧ (lookupStringConstant s sym c).2.depthOk = c.depthOk
    ∧ (lookupStringConstant s sym c).2.opens = c.opens
    ∧ (lookupStringConstant s sym c).2.closes = c.closes := by
  unfold lookupStringConstant
  cases h : c.constMap.lookup s with
  | none => exact ⟨rfl, rfl, rfl, rfl⟩
  | some i =>
      simp only
      cases hg : c.linkerSymbols.get? i with
      | none => exact ⟨rfl, rfl, rfl, rfl⟩
      | some si => cases si with
        | function ws => exact ⟨rfl, rfl, rfl, rfl⟩
        | data d => cases d; exact ⟨rfl, rfl, rfl, rfl⟩
        | global ws => exact ⟨rfl, rfl, rfl, rfl⟩

@[simp] theorem loadLiteral_cf (lit : Literal) (stg : StoredValue) (sym : Nat) (c : Ctx) :
    (loadLiteral lit stg sym c).2.blockDepth = c.blockDepth
    ∧ (loadLiteral lit stg sym c).2.depthOk = c.depthOk
    ∧ (loadLiteral lit stg sym c).2.opens = c.opens
    ∧ (loadLiteral lit stg sym c).2.closes = c.closes := by
  unfold loadLiteral
  rcases stg with vt | ⟨id, vt⟩ | ⟨p, off, sz, al⟩
  · rcases lit <;> rcases vt <;> exact ⟨rfl, rfl, rfl, rfl⟩
  · exact ⟨rfl, rfl, rfl, rfl⟩
  · rcases lit with v | b | v | s
    · exact ⟨rfl, rfl, rfl, rfl⟩
    · exact ⟨rfl, rfl, rfl, rfl⟩
    · exact ⟨rfl, rfl, rfl, rfl⟩
    · by_cases hl : s.length < 8
      · simp [hl]
      · simp only [hl, if_false]
        cases hk : (lookupStringConstant s sym c).1 with
        | none => simp [hk]
        | some r => cases r; simp [hk]

@[simp] theorem buildTag_cf (ul : UnionLayout) (tagId : Nat) (args : List Nat)
    (symbol : Nat) (stored : StoredValue) (c : Ctx) :
    (buildTag ul tagId args symbol stored c).2.blockDepth = c.blockDepth
    ∧ (buildTag ul tagId args symbol stored c).2.depthOk = c.depthOk
    ∧ (buildTag ul tagId args symbol stored c).2.opens = c.opens
    ∧ (buildTag ul tagId args symbol stored c).2.closes = c.closes := by
  unfold buildTag
  by_cases hn : ul.tagIsNull tagId
  · simp [hn]
  · simp only [hn, if_false]
    cases he : (c.ensureValueHasLocal symbol stored).2.1 <;> simp [he]

@[simp] theorem buildGetTagId_cf (structSym : Nat) (ul : UnionLayout) (c : Ctx) :
    (buildGetTagId structSym ul c).2.blockDepth = c.blockDepth
    ∧ (buildGetTagId structSym ul c).2.depthOk = c.depthOk
    ∧ (buildGetTagId structSym ul c).2.opens = c.opens
    ∧ (buildGetTagId structSym ul c).2.closes = c.closes := by
  cases ul <;> exact ⟨rfl, rfl, rfl, rfl⟩

@[simp] theorem buildUnionAtIndex_cf (structSym tagId : Nat) (ul : UnionLayout)
    (index symbol : Nat) (c : Ctx) :
    (buildUnionAtIndex structSym tagId ul index symbol c).2.blockDepth = c.blockDepth
    ∧ (buildUnionAtIndex structSym tagId ul index symbol c).2.depthOk = c.depthOk
    ∧ (buildUnionAtIndex structSym tagId ul index symbol c).2.opens = c.opens
    ∧ (buildUnionAtIndex structSym tagId ul index symbol c).2.closes = c.closes := by
  unfold buildUnionAtIndex
  by_cases hp : ul.storesTagIdInPointer <;> simp [hp, Ctx.createAnonymousLocal]

@[simp] theorem createStruct_cf (sym : Nat) (layout : Layout) (fields : List Nat)
    (c : Ctx) :
    (createStruct sym layout fields c).2.blockDepth = c.blockDepth
    ∧ (createStruct sym layout fields c).2.depthOk = c.depthOk
    ∧ (createStruct sym layout fields c).2.opens = c.opens
    ∧ (createStruct sym layout fields c).2.closes = c.closes := by
  unfold createStruct
  cases layout with
  | structL fs =>
      simp only
      rcases hs : c.storageGet sym with vt | ⟨id, vt⟩ | ⟨p, off, size, al⟩
      · simp [hs]
      · simp [hs]
      · by_cases h0 : 0 < size <;> simp [hs, h0]
  | int32 => exact ⟨rfl, rfl, rfl, rfl⟩
  | int64 => exact ⟨rfl, rfl, rfl, rfl⟩
  | float32 => exact ⟨rfl, rfl, rfl, rfl⟩
  | float64 => exact ⟨rfl, rfl, rfl, rfl⟩
  | boolL => exact ⟨rfl, rfl, rfl, rfl⟩
  | strL => exact ⟨rfl, rfl, rfl, rfl⟩

@[simp] theorem buildExpr_cf (sym : Nat) (e : Expr) (layout : Layout)
    (stg : StoredValue) (c : Ctx) :
    (buildExpr sym e layout stg c).2.blockDepth = c.blockDepth
    ∧ (buildExpr sym e layout stg c).2.depthOk = c.depthOk
    ∧ (buildExpr sym e layout stg c).2.opens = c.opens
    ∧ (buildExpr sym e layout stg c).2.closes = c.closes := by
  cases e with
  | lit l => simp [buildExpr]
  | structE fields => simp [buildExpr]
  | structAtIndex index fl ss =>
      unfold buildExpr
      rcases hs : c.storageGet ss with vt | ⟨id, vt⟩ | ⟨p, off, size, al⟩ <;> simp [hs]
  | tag ul tid args => simp [buildExpr]
  | getTagId ss ul => simp [buildExpr]
  | unionAtIndex ss tid ul idx => simp [buildExpr]

@[simp] theorem openBlocks_cf (n : Nat) (c : Ctx) :
    (openBlocks n c).blockDepth = c.blockDepth + n
    ∧ (openBlocks n c).depthOk = c.depthOk
    ∧ (openBlocks n c).opens = c.opens + n
    ∧ (openBlocks n c).closes = c.closes := by
  induction n generalizing c with
  | zero => simp [openBlocks]
  | succ m ih =>
      obtain ⟨h1, h2, h3, h4⟩ := ih c.startBlock
      simp only [openBlocks]
      refine ⟨?_, h2.trans rfl, ?_, h4.trans rfl⟩
      · rw [h1]
        simp only [Ctx.startBlock]
        push_cast
        ring
      · rw [h3]
        simp only [Ctx.startBlock]
        omega

@[simp] theorem allocJoinParams_cf (params : List (Nat × Layout)) (c : Ctx) :
    (allocJoinParams params c).2.2.blockDepth = c.blockDepth
    ∧ (allocJoinParams params c).2.2.depthOk = c.depthOk
    ∧ (allocJoinParams params c).2.2.opens = c.opens
    ∧ (allocJoinParams params c).2.2.closes = c.closes := by
  induction params generalizing c with
  | nil => simp [allocJoinParams]
  | cons p rest ih =>
      obtain ⟨sym, layout⟩ := p
      simp [allocJoinParams, ih]

/-- Statement compilation is block-balanced: it restores the block depth,
opens exactly as many blocks as it closes, and never drives the depth
counter negative; the branch-body loop of Switch closes one block per
branch. -/
theorem buildStmt_cf (rl : Layout) :
    (∀ (s : Stmt) (c : Ctx),
       (buildStmt rl s c).2.blockDepth = c.blockDepth
       ∧ (buildStmt rl s c).2.opens + c.closes = (buildStmt rl s c).2.closes + c.opens
       ∧ (c.depthOk = true → 0 ≤ c.blockDepth → (buildStmt rl s c).2.depthOk = true))
    ∧ (∀ (bs : List (Nat × Stmt)) (c : Ctx),
       (buildBranchBodies rl bs c).2.blockDepth = c.blockDepth - bs.length
       ∧ (buildBranchBodies rl bs c).2.opens + c.closes + bs.length =
           (buildBranchBodies rl bs c).2.closes + c.opens
       ∧ (c.depthOk = true → (bs.length : Int) ≤ c.blockDepth →
           (buildBranchBodies rl bs c).2.depthOk = true)) := by
  apply buildStmt.mutual_induct rl
  case case1 =>
    intro sym e layout next c
    simp only []
    intro ih
    obtain ⟨ih1, ih2, ih3⟩ := ih
    simp only [buildStmt]
    refine ⟨?_, ?_, ?_⟩
    · simp_all
    · simp_all
    · intro hok hnn
      apply ih3 <;> simp_all
  case case2 =>
    intro sym c p off size al h
    refine ⟨?_, ?_, ?_⟩
    · simp [buildStmt, h]
    · simp [buildStmt, h]
      omega
    · intro hok hnn
      simp [buildStmt, h, hok]
  case case3 =>
    intro sym c h
    rcases hs : c.storageGet sym with vt | ⟨id, vt⟩ | ⟨p, off, size, al⟩
    · refine ⟨?_, ?_, ?_⟩
      · simp [buildStmt, hs]
      · simp [buildStmt, hs]
        omega
      · intro hok hnn
        simp [buildStmt, hs, hok]
    · refine ⟨?_, ?_, ?_⟩
      · simp [buildStmt, hs]
      · simp [buildStmt, hs]
        omega
      · intro hok hnn
        simp [buildStmt, hs, hok]
    · exact (h p off size al hs).elim
  case case4 =>
    intro condSym condLayout branches defaultBranch c
    simp only []
    intro ihd ihb
    obtain ⟨ihd1, ihd2, ihd3⟩ := ihd
    obtain ⟨ihb1, ihb2, ihb3⟩ := ihb
    simp only [buildStmt]
    refine ⟨?_, ?_, ?_⟩
    · simp_all
      try omega
    · simp_all
      try omega
    · intro hok hnn
      apply ihb3
      · apply ihd3 <;> simp_all
        try omega
      · simp_all
        try omega
  case case5 =>
    intro id params body remainder c
    simp only []
    intro ihr ihb
    obtain ⟨ihr1, ihr2, ihr3⟩ := ihr
    obtain ⟨ihb1, ihb2, ihb3⟩ := ihb
    simp only [buildStmt]
    simp [Ctx.startBlock, Ctx.endBlock] at ihr1 ihr2 ihr3 ihb1 ihb2 ihb3 ⊢
    refine ⟨?_, ?_, ?_⟩
    · omega
    · omega
    · intro hok hnn
      have hro := ihr3 hok (by omega)
      have hdec : (1 : Int) ≤ c.blockDepth + 1 := by omega
      simp [hro, ihr1, hdec] at ihb1 ihb3 ⊢
      refine ⟨?_, by omega⟩
      first
      | exact ihb3
      | apply ihb3 <;> omega
  case case6 =>
    intro id args c target ps h
    refine ⟨?_, ?_, ?_⟩
    · simp [buildStmt, h]
    · simp [buildStmt, h]
      omega
    · intro hok hnn
      simp [buildStmt, h, hok]
  case case7 =>
    intro id args c h
    refine ⟨?_, ?_, ?_⟩
    · simp [buildStmt, h]
    · simp [buildStmt, h]
      omega
    · intro hok hnn
      simp [buildStmt, h, hok]
  case case8 =>
    intro c
    refine ⟨?_, ?_, ?_⟩
    · simp [buildBranchBodies]
    · simp [buildBranchBodies]
      omega
    · intro hok hnn
      simp [buildBranchBodies, hok]
  case case9 =>
    intro fst b rest c
    simp only []
    intro ihb ihrest
    obtain ⟨ihb1, ihb2, ihb3⟩ := ihb
    obtain ⟨ihr1, ihr2, ihr3⟩ := ihrest
    simp only [buildBranchBodies]
    refine ⟨?_, ?_, ?_⟩
    · rw [ihr1, ihb1]
      simp only [Ctx.endBlock, List.length_cons]
      push_cast
      ring
    · simp only [Ctx.endBlock, List.length_cons] at ihb2 ihr2 ⊢
      omega
    · intro hok hnn
      simp only [List.length_cons] at hnn
      push_cast at hnn
      have hbo := ihb3 (by simp [Ctx.endBlock, hok]; omega) (by simp [Ctx.endBlock]; omega)
      apply ihr3 hbo
      rw [ihb1]
      simp only [Ctx.endBlock]
      omega

@[simp] theorem allocParams_cf (args : List (Layout × Nat)) (c : Ctx) :
    (allocParams args c).blockDepth = c.blockDepth
    ∧ (allocParams args c).depthOk = c.depthOk
    ∧ (allocParams args c).opens = c.opens
    ∧ (allocParams args c).closes = c.closes := by
  induction args generalizing c with
  | nil => simp [allocParams]
  | cons a rest ih =>
      obtain ⟨layout, sym⟩ := a
      simp [allocParams, ih]

/-- `start_proc` opens exactly one block (the wrapper every `Ret` targets)
and touches no other control bookkeeping. -/
theorem startProc_cf (p : Proc) (c : Ctx) :
    (startProc p c).2.blockDepth = c.blockDepth + 1
    ∧ (startProc p c).2.depthOk = c.depthOk
    ∧ (startProc p c).2.opens = c.opens + 1
    ∧ (startProc p c).2.closes = c.closes := by
  cases hrm : (wasmLayoutOf p.retLayout).returnMethod <;>
    simp [startProc, hrm, Ctx.startBlock]

/-! ## Claim C9 -/

/-- C9: for every procedure compilation starting with block depth zero,
the depth is back to zero at the end (the `assert_eq!` in `reset`
passes), every opened block or loop has been closed exactly once (the
open counter and the close counter advance by the same amount), and the
depth counter never went negative at any point during emission (the
`depthOk` flag, cleared by any decrement below zero, is still set). -/
theorem c9_block_balance (p : Proc) (c : Ctx)
    (hd : c.blockDepth = 0) (hok : c.depthOk = true) :
    (buildProc p c).2.blockDepth = 0
    ∧ (buildProc p c).2.depthOk = true
    ∧ (buildProc p c).2.opens + c.closes = (buildProc p c).2.closes + c.opens := by
  obtain ⟨hs1, hs2, hs3, hs4⟩ := startProc_cf p c
  obtain ⟨hb1, hb2, hb3⟩ := (buildStmt_cf p.retLayout).1 p.body (startProc p c).2
  have hbody_ok : (buildStmt p.retLayout p.body (startProc p c).2).2.depthOk = true := by
    apply hb3
    · rw [hs2, hok]
    · rw [hs1, hd]
      norm_num
  refine ⟨?_, ?_, ?_⟩
  · simp only [buildProc, finalizeProc, Ctx.reset, Ctx.endBlock]
    rw [hb1, hs1, hd]
    norm_num
  · simp only [buildProc, finalizeProc, Ctx.reset, Ctx.endBlock]
    rw [hbody_ok, hb1, hs1, hd]
    norm_num
  · simp only [buildProc, finalizeProc, Ctx.reset, Ctx.endBlock]
    omega

/-- Witness for C9: a one-statement procedure returning an `i32` literal,
compiled from the initial context. -/
theorem c9_block_balance_witness :
    (({} : Ctx).blockDepth = 0 ∧ ({} : Ctx).depthOk = true)
    ∧ ((buildProc ⟨[], .int32, .letS 0 (.lit (.int 3)) .int32 (.ret 0)⟩ {}).2.blockDepth = 0
      ∧ (buildProc ⟨[], .int32, .letS 0 (.lit (.int 3)) .int32 (.ret 0)⟩ {}).2.depthOk = true
      ∧ (buildProc ⟨[], .int32, .letS 0 (.lit (.int 3)) .int32 (.ret 0)⟩ {}).2.opens
          + ({} : Ctx).closes =
        (buildProc ⟨[], .int32, .letS 0 (.lit (.int 3)) .int32 (.ret 0)⟩ {}).2.closes
          + ({} : Ctx).opens) :=
  ⟨⟨rfl, rfl⟩,
    c9_block_balance ⟨[], .int32, .letS 0 (.lit (.int 3)) .int32 (.ret 0)⟩ {} rfl rfl⟩

/-! ## No direct return instruction

The backend never uses the VM's `return` instruction (`Instr.returnI`):
every exit goes through a branch to the wrapper block.  The lemmas below
establish this for every emission function. -/

@[simp] theorem returnI_notin_ensureValueHasLocal (c : Ctx) (sym : Nat)
    (sv : StoredValue) : Instr.returnI ∉ (c.ensureValueHasLocal sym sv).1 := by
  cases sv <;> simp [Ctx.ensureValueHasLocal]

@[simp] theorem returnI_notin_callZigBuiltin (c : Ctx) (name : String)
    (pt : List ValueType) (rt : Option ValueType) :
    Instr.returnI ∉ (c.callZigBuiltin name pt rt).1 := by
  unfold Ctx.callZigBuiltin
  cases h : c.builtinMap.lookup name with
  | none => simp
  | some i =>
      simp only
      cases hg : c.linkerSymbols.get? i with
      | none => simp
      | some si => cases si with
        | function ws => cases ws <;> simp
        | data d => simp
        | global ws => simp

@[simp] theorem returnI_notin_allocateWithRefcount (sz : Option Nat) (a i : Nat)
    (c : Ctx) : Instr.returnI ∉ (allocateWithRefcount sz a i c).1 := by
  cases sz <;> simp [allocateWithRefcount]

@[simp] theorem returnI_notin_loadLiteral (lit : Literal) (stg : StoredValue)
    (sym : Nat) (c : Ctx) : Instr.returnI ∉ (loadLiteral lit stg sym c).1 := by
  unfold loadLiteral
  rcases stg with vt | ⟨id, vt⟩ | ⟨p, off, sz, al⟩
  · rcases lit <;> rcases vt <;> simp
  · simp
  · rcases lit with v | b | v | s
    · simp
    · simp
    · simp
    · by_cases hl : s.length < 8
      · simp [hl]
      · simp only [hl, if_false]
        cases hk : (lookupStringConstant s sym c).1 with
        | none => simp [hk]
        | some r => cases r; simp [hk]

@[simp] theorem returnI_notin_writeFieldsCode (localId : Nat) (c : Ctx)
    (fields : List Nat) (off : Nat) :
    Instr.returnI ∉ writeFieldsCode localId c fields off := by
  induction fields generalizing off with
  | nil => simp [writeFieldsCode]
  | cons f rest ih => simp [writeFieldsCode, ih]

@[simp] theorem returnI_notin_buildTag (ul : UnionLayout) (tagId : Nat)
    (args : List Nat) (symbol : Nat) (stored : StoredValue) (c : Ctx) :
    Instr.returnI ∉ (buildTag ul tagId args symbol stored c).1 := by
  unfold buildTag
  by_cases hn : ul.tagIsNull tagId
  · simp [hn]
  · simp only [hn, if_false]
    cases he : (c.ensureValueHasLocal symbol stored).2.1 <;>
      · simp only [he]
        by_cases hd : ul.storesTagIdAsData <;>
          by_cases hp : ul.storesTagIdInPointer <;>
            rcases hda : Align.fromBytes ul.dataSizeAndAlignment.2 <;>
              simp_all

@[simp] theorem returnI_notin_buildGetTagId (structSym : Nat) (ul : UnionLayout)
    (c : Ctx) : Instr.returnI ∉ (buildGetTagId structSym ul c).1 := by
  unfold buildGetTagId
  cases ul with
  | nonNullableUnwrapped fields => simp
  | nonRecursive tags =>
      by_cases hd : (UnionLayout.nonRecursive tags).storesTagIdAsData <;>
        by_cases hp : (UnionLayout.nonRecursive tags).storesTagIdInPointer <;>
          rcases hw : (UnionLayout.nonRecursive tags).tagIdWidth <;> simp_all
  | recursive tags =>
      by_cases hd : (UnionLayout.recursive tags).storesTagIdAsData <;>
        by_cases hp : (UnionLayout.recursive tags).storesTagIdInPointer <;>
          rcases hw : (UnionLayout.recursive tags).tagIdWidth <;> simp_all
  | nullableWrapped nid tags =>
      by_cases hd : (UnionLayout.nullableWrapped nid tags).storesTagIdAsData <;>
        by_cases hp : (UnionLayout.nullableWrapped nid tags).storesTagIdInPointer <;>
          rcases hw : (UnionLayout.nullableWrapped nid tags).tagIdWidth <;> simp_all
  | nullableUnwrapped nid fields =>
      by_cases hd : (UnionLayout.nullableUnwrapped nid fields).storesTagIdAsData <;>
        by_cases hp : (UnionLayout.nullableUnwrapped nid fields).storesTagIdInPointer <;>
          rcases hw : (UnionLayout.nullableUnwrapped nid fields).tagIdWidth <;> simp_all

@[simp] theorem returnI_notin_buildUnionAtIndex (structSym tagId : Nat)
    (ul : UnionLayout) (index symbol : Nat) (c : Ctx) :
    Instr.returnI ∉ (buildUnionAtIndex structSym tagId ul index symbol c).1 := by
  unfold buildUnionAtIndex
  cases he : (c.ensureValueHasLocal structSym (c.storageGet structSym)).2.1 <;>
    by_cases hp : ul.storesTagIdInPointer <;> simp_all

@[simp] theorem returnI_notin_createStruct (sym : Nat) (layout : Layout)
    (fields : List Nat) (c : Ctx) :
    Instr.returnI ∉ (createStruct sym layout fields c).1 := by
  unfold createStruct
  cases layout with
  | structL fs =>
      simp only
      rcases hs : c.storageGet sym with vt | ⟨id, vt⟩ | ⟨p, off, size, al⟩ <;>
        [skip; skip; by_cases h0 : 0 < size] <;> simp_all
  | int32 => simp
  | int64 => simp
  | float32 => simp
  | float64 => simp
  | boolL => simp
  | strL => simp

@[simp] theorem returnI_notin_buildExpr (sym : Nat) (e : Expr) (layout : Layout)
    (stg : StoredValue) (c : Ctx) : Instr.returnI ∉ (buildExpr sym e layout stg c).1 := by
  cases e with
  | structAtIndex index fl ss =>
      unfold buildExpr
      rcases hs : c.storageGet ss with vt | ⟨id, vt⟩ | ⟨p, off, size, al⟩ <;> simp [hs]
  | _ => simp [buildExpr]

@[simp] theorem returnI_notin_switchTestsCode (condSym : Nat) (isBool : Bool)
    (vt : ValueType) (i : Nat) (vals : List Nat) :
    Instr.returnI ∉ switchTestsCode condSym isBool vt i vals := by
  induction vals generalizing i with
  | nil => simp [switchTestsCode]
  | cons v rest ih =>
      have hcmp : Instr.returnI ∉ switchTestCmp isBool vt v := by
        unfold switchTestCmp
        by_cases hb : isBool
        · by_cases hv : v = 0 <;> simp [hb, hv]
        · cases vt <;> simp [hb]
      simp [switchTestsCode, ih, hcmp]

@[simp] theorem returnI_notin_jumpArgsCode (c : Ctx) (args : List Nat)
    (params : List StoredValue) : Instr.returnI ∉ jumpArgsCode c args params := by
  induction args generalizing params with
  | nil => simp [jumpArgsCode]
  | cons a rest ih =>
      cases params with
      | nil => simp [jumpArgsCode]
      | cons p ps => simp [jumpArgsCode, ih]

@[simp] theorem returnI_notin_allocJoinParams (params : List (Nat × Layout))
    (c : Ctx) : Instr.returnI ∉ (allocJoinParams params c).1 := by
  induction params generalizing c with
  | nil => simp [allocJoinParams]
  | cons p rest ih =>
      obtain ⟨sym, layout⟩ := p
      simp [allocJoinParams, ih]

/-- Statement lowering never emits the VM's direct `return` instruction:
every exit path is a branch. -/
theorem buildStmt_no_return (rl : Layout) :
    (∀ (s : Stmt) (c : Ctx), Instr.returnI ∉ (buildStmt rl s c).1)
    ∧ (∀ (bs : List (Nat × Stmt)) (c : Ctx),
        Instr.returnI ∉ (buildBranchBodies rl bs c).1) := by
  apply buildStmt.mutual_induct rl
  case case1 =>
    intro sym e layout next c
    simp only []
    intro ih
    simp_all [buildStmt]
  case case2 =>
    intro sym c p off size al h
    simp [buildStmt, h]
  case case3 =>
    intro sym c h
    rcases hs : c.storageGet sym with vt | ⟨id, vt⟩ | ⟨p, off, size, al⟩
    · simp [buildStmt, hs]
    · simp [buildStmt, hs]
    · exact (h p off size al hs).elim
  case case4 =>
    intro condSym condLayout branches defaultBranch c
    simp only []
    intro ihd ihb
    simp_all [buildStmt]
  case case5 =>
    intro id params body remainder c
    simp only []
    intro ihr ihb
    simp_all [buildStmt]
  case case6 =>
    intro id args c target ps h
    simp [buildStmt, h]
  case case7 =>
    intro id args c h
    simp [buildStmt, h]
  case case8 =>
    intro c
    simp [buildBranchBodies]
  case case9 =>
    intro fst b rest c
    simp only []
    intro ihb ihrest
    simp_all [buildBranchBodies]

/-! ## Claim C3 -/

/-- C3: lowering `Ret(sym)` emits a branch of `block depth - 1` levels —
the relative level of the single wrapper block that `start_proc` opened
(conjunct 5: `start_proc` emits exactly one `block` instruction and
raises the depth from `d` to `d + 1`) — and never the VM's direct
`return` instruction (conjunct 4: no statement lowering ever emits it).
If the symbol's storage is a frame slot, its bytes are first copied to
the memory addressed by the return-pointer argument, local 0 at offset 0
(conjunct 1); otherwise the value is loaded onto the operand stack before
the branch (conjunct 2).  Conjunct 3 checks the branch level is the exact
depth difference, not a clamped one. -/
theorem c3_ret_lowering (rl : Layout) (ctx : Ctx) (sym : Nat)
    (hd : 1 ≤ ctx.blockDepth) :
    (∀ p off size align, ctx.storageGet sym = .stackMemory p off size align →
       buildStmt rl (.ret sym) ctx =
         ([.copyMemoryI p off 0 0 size align, .br (ctx.blockDepth - 1).toNat], ctx))
    ∧ ((∀ p off size align, ctx.storageGet sym ≠ .stackMemory p off size align) →
       buildStmt rl (.ret sym) ctx =
         ([.loadSymbol sym, .br (ctx.blockDepth - 1).toNat], ctx))
    ∧ (((ctx.blockDepth - 1).toNat : Int) = ctx.blockDepth - 1)
    ∧ (∀ (s : Stmt) (c : Ctx), Instr.returnI ∉ (buildStmt rl s c).1)
    ∧ (∀ (p : Proc) (c : Ctx), ∃ bt, (startProc p c).1 = [Instr.block bt]
        ∧ (startProc p c).2.blockDepth = c.blockDepth + 1) := by
  refine ⟨?_, ?_, by omega, (buildStmt_no_return rl).1, ?_⟩
  · intro p off size align h
    simp [buildStmt, h]
  · intro h
    rcases hs : ctx.storageGet sym with vt | ⟨id, vt⟩ | ⟨p, off, size, al⟩
    · simp [buildStmt, hs]
    · simp [buildStmt, hs]
    · exact absurd hs (h p off size al)
  · intro p c
    exact ⟨_, rfl, (startProc_cf p c).1⟩

/-- Concrete context for the C3 witness: depth 1 (inside the wrapper
block only), symbol 4 in a frame slot. -/
def c3Ctx : Ctx :=
  { blockDepth := 1, storage := [(4, .stackMemory 7 16 24 8)] }

/-- Witness for C3: at depth 1, `Ret` of a frame-slot symbol copies to
local 0 offset 0 and branches 0 levels (the wrapper block). -/
theorem c3_ret_lowering_witness :
    1 ≤ c3Ctx.blockDepth
    ∧ buildStmt .int32 (.ret 4) c3Ctx =
        ([.copyMemoryI 7 16 0 0 24 8, .br (c3Ctx.blockDepth - 1).toNat], c3Ctx) :=
  ⟨by norm_num [c3Ctx],
    (c3_ret_lowering .int32 c3Ctx 4 (by norm_num [c3Ctx])).1 7 16 24 8 rfl⟩

/-! ## Claim C2 -/

/-- Closed form of the Switch test loop: the test for the branch at
position `k` (0-based declaration order) reloads the condition, applies
the equality test for that branch's value, and emits `br_if` with level
operand `i + k`. -/
theorem switchTestsCode_eq (condSym : Nat) (isBool : Bool) (vt : ValueType)
    (vals : List Nat) : ∀ (i : Nat),
    switchTestsCode condSym isBool vt i vals =
      (List.range vals.length).flatMap (fun k =>
        Instr.loadSymbol condSym ::
          (switchTestCmp isBool vt (vals.getD k 0) ++ [Instr.brIf (i + k)])) := by
  induction vals with
  | nil => intro i; simp [switchTestsCode]
  | cons v rest ih =>
      intro i
      have hmap : ∀ (g : Nat → List Instr) (l : List Nat),
          (List.map Nat.succ l).flatMap g = l.flatMap (fun k => g (k + 1)) := by
        intro g l
        induction l with
        | nil => simp
        | cons a tl ihl => simp [ihl]
      rw [switchTestsCode, List.length_cons, List.range_succ_eq_map, List.flatMap_cons,
        hmap, ih (i + 1)]
      simp [Nat.add_assoc, Nat.add_comm 1]

/-- Specification view of the Switch body loop as a left fold: in original
branch order, append one `end` (closing one block) and then that branch's
compiled body. -/
def branchStep (rl : Layout) (acc : List Instr × Ctx) (vb : Nat × Stmt) :
    List Instr × Ctx :=
  (acc.1 ++ Instr.endI :: (buildStmt rl vb.2 acc.2.endBlock).1,
   (buildStmt rl vb.2 acc.2.endBlock).2)

theorem buildBranchBodies_foldl (rl : Layout) (bs : List (Nat × Stmt)) :
    ∀ (acc : List Instr) (c : Ctx),
      bs.foldl (branchStep rl) (acc, c) =
        (acc ++ (buildBranchBodies rl bs c).1, (buildBranchBodies rl bs c).2) := by
  induction bs with
  | nil => intro acc c; simp [buildBranchBodies]
  | cons vb tl ih =>
      intro acc c
      obtain ⟨v, b⟩ := vb
      rw [List.foldl_cons]
      show List.foldl (branchStep rl)
        (acc ++ Instr.endI :: (buildStmt rl b c.endBlock).1,
          (buildStmt rl b c.endBlock).2) tl = _
      rw [ih]
      simp [buildBranchBodies]

/-- C2: lowering a Switch with `n` non-default branches emits, in order:
the condition-promotion code, exactly `n` anonymous (`NoResult`) blocks
(conjunct 2 counts them on the open counter), then for each branch
position `i` a reload of the condition, the equality test for that
branch's value (a boolean condition uses `i32.eqz` when the value is 0
and no test otherwise — see `switchTestCmp`), and a conditional branch
with level operand `i` (which in the VM exits `i + 1` enclosing blocks,
the innermost included); then the default body as the fallthrough after
all tests; then, by conjunct 3, in original branch order one block close
(`end`) followed immediately by that branch's body. -/
theorem c2_switch_lowering (rl : Layout) (condSym : Nat) (condLayout : Layout)
    (branches : List (Nat × Stmt)) (defaultBranch : Stmt) (ctx : Ctx) :
    (buildStmt rl (.switch condSym condLayout branches defaultBranch) ctx =
      (let ensured := ctx.ensureValueHasLocal condSym (ctx.storageGet condSym)
       let c2 := openBlocks branches.length ensured.2.2
       let dflt := buildStmt rl defaultBranch c2
       let bodies := buildBranchBodies rl branches dflt.2
       (ensured.1 ++ List.replicate branches.length (Instr.block .noResult)
          ++ (List.range branches.length).flatMap (fun i =>
               Instr.loadSymbol condSym ::
                 (switchTestCmp (isBoolLayout condLayout) (condValueType condLayout)
                    ((branches.map Prod.fst).getD i 0) ++ [Instr.brIf i]))
          ++ dflt.1 ++ bodies.1, bodies.2)))
    ∧ (openBlocks branches.length
          (ctx.ensureValueHasLocal condSym (ctx.storageGet condSym)).2.2).opens =
        (ctx.ensureValueHasLocal condSym (ctx.storageGet condSym)).2.2.opens
          + branches.length
    ∧ (∀ (bs : List (Nat × Stmt)) (c : Ctx),
        buildBranchBodies rl bs c = bs.foldl (branchStep rl) ([], c)) := by
  refine ⟨?_, (openBlocks_cf branches.length _).2.2.1, ?_⟩
  · simp only [buildStmt, switchTestsCode_eq]
    simp
  · intro bs c
    rw [buildBranchBodies_foldl rl bs [] c]
    simp

/-! ## Claim C7 -/

/-- Closed form of the Jump argument loop: one `clone_value` per
(argument, parameter) pair of the zip, in order. -/
theorem jumpArgsCode_eq (c : Ctx) : ∀ (args : List Nat) (params : List StoredValue),
    jumpArgsCode c args params =
      (args.zip params).map (fun ap => Instr.cloneValue ap.2 (c.storageGet ap.1) ap.1) := by
  intro args
  induction args with
  | nil => intro params; cases params <;> simp [jumpArgsCode]
  | cons a rest ih => intro params; cases params <;> simp [jumpArgsCode, ih]

/-- The storages the Join parameter loop registers are all durable: never
ephemeral operand-stack storage. -/
theorem allocJoinParams_durable (params : List (Nat × Layout)) (c : Ctx) :
    ∀ sv ∈ (allocJoinParams params c).2.1, ∀ vt,
      sv ≠ StoredValue.virtualMachineStack vt := by
  induction params generalizing c with
  | nil => simp [allocJoinParams]
  | cons p rest ih =>
      obtain ⟨sym, layout⟩ := p
      simp only [allocJoinParams, List.mem_cons]
      rintro sv (rfl | hm)
      · cases halloc : (c.allocate (wasmLayoutOf layout) sym .variableK).1 <;>
          simp [Ctx.ensureValueHasLocal, halloc]
      · exact ih _ sv hm

/-- C7: a `Jump` to a registered join point first assigns (clones) each
argument into the corresponding join-parameter storage, in zip order, and
then branches exactly `current block depth - registered target depth`
levels, recomputed from the depth at the jump site (conjunct 2 checks the
subtraction is exact).  When the `Join` was compiled, every parameter was
forced into durable storage (conjunct 3: no registered parameter storage
is ephemeral operand-stack storage), and the join point was registered
under target depth `entry depth + 1` in the context used to compile both
the remainder and the loop body (conjunct 4 exhibits the whole lowering
with the registered entry present, conjunct 5 that looking the id up in
that context finds it). -/
theorem c7_jump_and_join (rl : Layout) (ctx : Ctx) (id : Nat) (args : List Nat)
    (target : Int) (paramStorages : List StoredValue)
    (h : ctx.joinpoints.lookup id = some (target, paramStorages))
    (hd : target ≤ ctx.blockDepth) :
    buildStmt rl (.jump id args) ctx =
      ((args.zip paramStorages).map
          (fun ap => Instr.cloneValue ap.2 (ctx.storageGet ap.1) ap.1)
        ++ [.br (ctx.blockDepth - target).toNat], ctx)
    ∧ (((ctx.blockDepth - target).toNat : Int) = ctx.blockDepth - target)
    ∧ (∀ (params : List (Nat × Layout)) (c : Ctx),
        ∀ sv ∈ (allocJoinParams params c).2.1, ∀ vt,
          sv ≠ StoredValue.virtualMachineStack vt)
    ∧ (∀ (params : List (Nat × Layout)) (body remainder : Stmt) (c : Ctx),
        buildStmt rl (.join id params body remainder) c =
          (let allocated := allocJoinParams params c
           let c3 := { allocated.2.2.startBlock with
             joinpoints := (id, (c.blockDepth + 1, allocated.2.1)) ::
               allocated.2.2.startBlock.joinpoints }
           let rem := buildStmt rl remainder c3
           let bodyPart := buildStmt rl body rem.2.endBlock.startBlock
           (allocated.1 ++ Instr.block .noResult :: rem.1
              ++ Instr.endI :: Instr.loopI
                   (match (wasmLayoutOf rl).returnMethod with
                    | .primitive ty => BlockType.value ty
                    | .writeToPointerArg => BlockType.noResult
                    | .noReturnValue => BlockType.noResult) :: bodyPart.1
              ++ [Instr.endI],
            bodyPart.2.endBlock)))
    ∧ (∀ (params : List (Nat × Layout)) (c : Ctx),
        ({ (allocJoinParams params c).2.2.startBlock with
            joinpoints := (id, (c.blockDepth + 1, (allocJoinParams params c).2.1)) ::
              (allocJoinParams params c).2.2.startBlock.joinpoints } : Ctx).joinpoints.lookup
          id = some (c.blockDepth + 1, (allocJoinParams params c).2.1)) := by
  refine ⟨?_, by omega, fun params c => allocJoinParams_durable params c, ?_, ?_⟩
  · simp only [buildStmt, h]
    rw [jumpArgsCode_eq]
  · intro params body remainder c
    have hdep : (allocJoinParams params c).2.2.startBlock.blockDepth = c.blockDepth + 1 := by
      simp [Ctx.startBlock]
    simp only [buildStmt, Ctx.startBlock] at hdep ⊢
    rw [hdep]
  · intro params c
    simp [List.lookup]

/-- Concrete context for the C7 witness: inside 3 blocks, join point 5
registered at target depth 2 with one local parameter. -/
def c7Ctx : Ctx :=
  { blockDepth := 3, joinpoints := [(5, (2, [.local 0 .i32]))] }

/-- Witness for C7: the jump assigns its one argument and branches 1
level (3 - 2). -/
theorem c7_jump_and_join_witness :
    c7Ctx.joinpoints.lookup 5 = some (2, [.local 0 .i32])
    ∧ (2 : Int) ≤ c7Ctx.blockDepth
    ∧ buildStmt .int32 (.jump 5 [9]) c7Ctx =
        (([(9 : Nat)].zip [StoredValue.local 0 .i32]).map
            (fun ap => Instr.cloneValue ap.2 (c7Ctx.storageGet ap.1) ap.1)
          ++ [.br (c7Ctx.blockDepth - 2).toNat], c7Ctx) :=
  ⟨rfl, by norm_num [c7Ctx],
    (c7_jump_and_join .int32 c7Ctx 5 [9] 2 [.local 0 .i32] rfl
      (by norm_num [c7Ctx])).1⟩

/-! ## Claim C5 -/

theorem lookup_mem {α β : Type} [BEq α] [LawfulBEq α] (l : List (α × β)) (k : α)
    (v : β) (h : l.lookup k = some v) : (k, v) ∈ l := by
  induction l with
  | nil => simp [List.lookup] at h
  | cons p rest ih =>
      obtain ⟨pk, pv⟩ := p
      simp only [List.lookup] at h
      cases hbeq : k == pk with
      | true =>
          rw [hbeq] at h
          simp only [Option.some.injEq] at h
          subst h
          have : k = pk := eq_of_beq hbeq
          subst this
          exact List.mem_cons_self _ _
      | false =>
          rw [hbeq] at h
          exact List.mem_cons_of_mem _ (ih h)

/-- The segment offset recorded for linker symbol index `i`, when that
entry is a defined data symbol. -/
def constEntryOffset (c : Ctx) (i : Nat) : Option Nat :=
  match c.linkerSymbols.get? i with
  | some (.data (.defined _ _ _ off _)) => some off
  | _ => none

/-- Invariant of the constant pool over a module session: every mapped
string has a valid linker symbol index pointing at a defined data symbol
whose segment offset lies within the current segment, and entries with
different keys have different offsets. -/
def ConstPoolInv (c : Ctx) : Prop :=
  (∀ p ∈ c.constMap, ∃ off, constEntryOffset c p.2 = some off
      ∧ off ≤ c.constSegment.length)
  ∧ (∀ p ∈ c.constMap, ∀ q ∈ c.constMap, p.1 ≠ q.1 →
      constEntryOffset c p.2 ≠ constEntryOffset c q.2)

theorem lookupString_grow (c : Ctx) (s : List Nat) (sym : Nat)
    (hm : c.constMap.lookup s = none) :
    lookupStringConstant s sym c =
      (some (c.linkerSymbols.length,
             c.constSegment.length + 4 + CONST_SEGMENT_BASE_ADDR),
       { c with
         constSegment := c.constSegment ++ i32LeBytes REFCOUNT_MAX ++ s,
         constMap := (s, c.linkerSymbols.length) :: c.constMap,
         linkerSymbols := c.linkerSymbols ++
           [.data (.defined 0 (symbolName sym) 0
             (c.constSegment.length + 4) s.length)] }) := by
  simp [lookupStringConstant, hm, i32LeBytes, REFCOUNT_MAX]

theorem lookupString_dedup (c : Ctx) (s : List Nat) (sym1 sym2 : Nat)
    (r : Nat × Nat) (c1 : Ctx)
    (h : lookupStringConstant s sym1 c = (some r, c1)) :
    lookupStringConstant s sym2 c1 = (some r, c1) := by
  cases hm : c.constMap.lookup s with
  | some i =>
      unfold lookupStringConstant at h
      simp only [hm] at h
      cases hg : c.linkerSymbols.get? i with
      | none =>
          simp only [hg] at h
          simp at h
      | some si =>
          cases si with
          | data d =>
              obtain ⟨fl, nm, seg, off, sz⟩ := d
              simp only [hg] at h
              rw [Prod.mk.injEq] at h
              obtain ⟨h1, h2⟩ := h
              injection h1 with h1
              subst h1
              subst h2
              unfold lookupStringConstant
              simp only [hm, hg]
          | function ws =>
              simp only [hg] at h
              simp at h
          | global ws =>
              simp only [hg] at h
              simp at h
  | none =>
      rw [lookupString_grow c s sym1 hm, Prod.mk.injEq] at h
      obtain ⟨h1, h2⟩ := h
      injection h1 with h1
      subst h1
      subst h2
      unfold lookupStringConstant
      have hlk : (((s, c.linkerSymbols.length) :: c.constMap).lookup s) =
          some c.linkerSymbols.length := by
        simp [List.lookup]
      simp only [hlk]
      rw [List.get?_concat_length]
      try simp [List.append_assoc]

theorem lookupString_inv (c : Ctx) (hinv : ConstPoolInv c) (s : List Nat)
    (sym : Nat) (r : Nat × Nat) (c1 : Ctx)
    (h : lookupStringConstant s sym c = (some r, c1)) : ConstPoolInv c1 := by
  obtain ⟨hinv1, hinv2⟩ := hinv
  cases hm : c.constMap.lookup s with
  | some i =>
      unfold lookupStringConstant at h
      simp only [hm] at h
      cases hg : c.linkerSymbols.get? i with
      | none => simp only [hg] at h; simp at h
      | some si =>
          cases si with
          | data d =>
              obtain ⟨fl, nm, seg, off, sz⟩ := d
              simp only [hg] at h
              rw [Prod.mk.injEq] at h
              rw [← h.2]
              exact ⟨hinv1, hinv2⟩
          | function ws => simp only [hg] at h; simp at h
          | global ws => simp only [hg] at h; simp at h
  | none =>
      rw [lookupString_grow c s sym hm, Prod.mk.injEq] at h
      obtain ⟨h1, h2⟩ := h
      subst h2
      have hofs : ∀ p ∈ c.constMap, constEntryOffset
          { c with
            constSegment := c.constSegment ++ i32LeBytes REFCOUNT_MAX ++ s,
            constMap := (s, c.linkerSymbols.length) :: c.constMap,
            linkerSymbols := c.linkerSymbols ++
              [.data (.defined 0 (symbolName sym) 0
                (c.constSegment.length + 4) s.length)] } p.2 =
          constEntryOffset c p.2 := by
        intro p hp
        obtain ⟨off, hoff, _⟩ := hinv1 p hp
        have hlt : p.2 < c.linkerSymbols.length := by
          unfold constEntryOffset at hoff
          cases hg : c.linkerSymbols.get? p.2 with
          | none => rw [hg] at hoff; simp at hoff
          | some si =>
              have := List.get?_eq_some.mp hg
              exact this.1
        unfold constEntryOffset
        simp only
        rw [List.get?_append hlt]
      have hnewoff : constEntryOffset
          { c with
            constSegment := c.constSegment ++ i32LeBytes REFCOUNT_MAX ++ s,
            constMap := (s, c.linkerSymbols.length) :: c.constMap,
            linkerSymbols := c.linkerSymbols ++
              [.data (.defined 0 (symbolName sym) 0
                (c.constSegment.length + 4) s.length)] } c.linkerSymbols.length =
          some (c.constSegment.length + 4) := by
        unfold constEntryOffset
        simp only
        rw [List.get?_concat_length]
      constructor
      · intro p hp
        simp only [List.mem_cons] at hp
        rcases hp with rfl | hp
        · refine ⟨c.constSegment.length + 4, hnewoff, ?_⟩
          simp [i32LeBytes]
          try omega
        · obtain ⟨off, hoff, hle⟩ := hinv1 p hp
          refine ⟨off, (hofs p hp).trans hoff, ?_⟩
          simp [i32LeBytes]
          try omega
      · intro p hp q hq hne
        simp only [List.mem_cons] at hp hq
        rcases hp with rfl | hp <;> rcases hq with rfl | hq
        · exact absurd rfl hne
        · rw [hnewoff, hofs q hq]
          obtain ⟨off, hoff, hle⟩ := hinv1 q hq
          rw [hoff]
          simp only [ne_eq, Option.some.injEq]
          omega
        · rw [hnewoff, hofs p hp]
          obtain ⟨off, hoff, hle⟩ := hinv1 p hp
          rw [hoff]
          simp only [ne_eq, Option.some.injEq]
          omega
        · rw [hofs p hp, hofs q hq]
          exact hinv2 p hp q hq hne

theorem lookupString_distinct (c : Ctx) (hinv : ConstPoolInv c)
    (s1 s2 : List Nat) (sym1 sym2 : Nat) (i1 a1 i2 a2 : Nat) (c1 c2 : Ctx)
    (hne : s1 ≠ s2)
    (h1 : lookupStringConstant s1 sym1 c = (some (i1, a1), c1))
    (h2 : lookupStringConstant s2 sym2 c1 = (some (i2, a2), c2)) :
    i1 ≠ i2 ∧ a1 ≠ a2 := by
  obtain ⟨hinv1, hinv2⟩ := hinv
  have getOff : ∀ (j off : Nat), c.linkerSymbols.get? j = some (.data (.defined 0 "" 0 off 0)) →
      True := fun _ _ _ => trivial
  cases hm1 : c.constMap.lookup s1 with
  | some j1 =>
      unfold lookupStringConstant at h1
      simp only [hm1] at h1
      cases hg1 : c.linkerSymbols.get? j1 with
      | none => simp only [hg1] at h1; simp at h1
      | some si1 =>
          cases si1 with
          | function ws => simp only [hg1] at h1; simp at h1
          | global ws => simp only [hg1] at h1; simp at h1
          | data d1 =>
              obtain ⟨fl1, nm1, seg1, off1, sz1⟩ := d1
              simp only [hg1] at h1
              rw [Prod.mk.injEq] at h1
              obtain ⟨h1a, h1b⟩ := h1
              injection h1a with h1a
              rw [Prod.mk.injEq] at h1a
              obtain ⟨hi1, ha1⟩ := h1a
              subst hi1
              subst ha1
              subst h1b
              have hmem1 : (s1, j1) ∈ c.constMap := lookup_mem _ _ _ hm1
              have hoff1 : constEntryOffset c j1 = some off1 := by
                unfold constEntryOffset
                rw [hg1]
              have hlt1 : j1 < c.linkerSymbols.length := (List.get?_eq_some.mp hg1).1
              have hle1 : off1 ≤ c.constSegment.length := by
                obtain ⟨off, ho, hl⟩ := hinv1 _ hmem1
                rw [hoff1] at ho
                injection ho with ho
                omega
              cases hm2 : c.constMap.lookup s2 with
              | some j2 =>
                  unfold lookupStringConstant at h2
                  simp only [hm2] at h2
                  cases hg2 : c.linkerSymbols.get? j2 with
                  | none => simp only [hg2] at h2; simp at h2
                  | some si2 =>
                      cases si2 with
                      | function ws => simp only [hg2] at h2; simp at h2
                      | global ws => simp only [hg2] at h2; simp at h2
                      | data d2 =>
                          obtain ⟨fl2, nm2, seg2, off2, sz2⟩ := d2
                          simp only [hg2] at h2
                          rw [Prod.mk.injEq] at h2
                          obtain ⟨h2a, h2b⟩ := h2
                          injection h2a with h2a
                          rw [Prod.mk.injEq] at h2a
                          obtain ⟨hi2, ha2⟩ := h2a
                          subst hi2
                          subst ha2
                          have hmem2 : (s2, j2) ∈ c.constMap := lookup_mem _ _ _ hm2
                          have hoff2 : constEntryOffset c j2 = some off2 := by
                            unfold constEntryOffset
                            rw [hg2]
                          have hoffne := hinv2 _ hmem1 _ hmem2 hne
                          rw [hoff1, hoff2] at hoffne
                          simp only [ne_eq, Option.some.injEq] at hoffne
                          constructor
                          · intro hji
                            apply hoffne
                            rw [hji] at hoff1
                            rw [hoff2] at hoff1
                            injection hoff1 with hh
                            rw [hji, hg2] at hg1
                            injection hg1 with hg
                            injection hg with hg
                            omega
                          · simp only [ne_eq]
                            omega
              | none =>
                  rw [lookupString_grow c s2 sym2 hm2, Prod.mk.injEq] at h2
                  obtain ⟨h2a, h2b⟩ := h2
                  injection h2a with h2a
                  rw [Prod.mk.injEq] at h2a
                  obtain ⟨hi2, ha2⟩ := h2a
                  subst hi2
                  subst ha2
                  constructor
                  · omega
                  · simp only [CONST_SEGMENT_BASE_ADDR] at *
                    omega
  | none =>
      rw [lookupString_grow c s1 sym1 hm1, Prod.mk.injEq] at h1
      obtain ⟨h1a, h1b⟩ := h1
      injection h1a with h1a
      rw [Prod.mk.injEq] at h1a
      obtain ⟨hi1, ha1⟩ := h1a
      subst hi1
      subst ha1
      have hbeq : (s2 == s1) = false := by
        rw [beq_eq_false_iff_ne]
        exact fun hh => hne hh.symm
      have hmc1 : c1.constMap = (s1, c.linkerSymbols.length) :: c.constMap := by
        rw [← h1b]
      have hm2eq : c1.constMap.lookup s2 = c.constMap.lookup s2 := by
        rw [hmc1]
        simp [List.lookup, hbeq]
      cases hm2 : c.constMap.lookup s2 with
      | some j2 =>
          unfold lookupStringConstant at h2
          rw [hm2eq] at h2
          simp only [hm2] at h2
          have hmem2 : (s2, j2) ∈ c.constMap := lookup_mem _ _ _ hm2
          obtain ⟨off2, hoff2, hle2⟩ := hinv1 _ hmem2
          have hlt2 : j2 < c.linkerSymbols.length := by
            unfold constEntryOffset at hoff2
            cases hgg : c.linkerSymbols.get? j2 with
            | none => rw [hgg] at hoff2; simp at hoff2
            | some si => exact (List.get?_eq_some.mp hgg).1
          have hg1ls : c1.linkerSymbols.get? j2 = c.linkerSymbols.get? j2 := by
            rw [← h1b]
            exact List.get?_append hlt2
          cases hg2 : c.linkerSymbols.get? j2 with
          | none =>
              rw [hg1ls, hg2] at h2
              simp at h2
          | some si2 =>
              cases si2 with
              | function ws => rw [hg1ls, hg2] at h2; simp at h2
              | global ws => rw [hg1ls, hg2] at h2; simp at h2
              | data d2 =>
                  obtain ⟨fl2, nm2, seg2, off2x, sz2⟩ := d2
                  rw [hg1ls, hg2] at h2
                  rw [Prod.mk.injEq] at h2
                  obtain ⟨h2a, h2b⟩ := h2
                  injection h2a with h2a
                  rw [Prod.mk.injEq] at h2a
                  obtain ⟨hi2, ha2⟩ := h2a
                  subst hi2
                  subst ha2
                  have hoff2x : off2x = off2 := by
                    unfold constEntryOffset at hoff2
                    simp only [hg2, Option.some.injEq] at hoff2
                    omega
                  constructor
                  · omega
                  · simp only [CONST_SEGMENT_BASE_ADDR] at *
                    omega
      | none =>
          have hm2b : c1.constMap.lookup s2 = none := by rw [hm2eq, hm2]
          rw [lookupString_grow c1 s2 sym2 hm2b, Prod.mk.injEq] at h2
          obtain ⟨h2a, h2b⟩ := h2
          injection h2a with h2a
          rw [Prod.mk.injEq] at h2a
          obtain ⟨hi2, ha2⟩ := h2a
          subst hi2
          subst ha2
          have hlsym : c1.linkerSymbols.length = c.linkerSymbols.length + 1 := by
            rw [← h1b]
            simp
          have hseg : c1.constSegment.length = c.constSegment.length + 4 + s1.length := by
            rw [← h1b]
            simp [i32LeBytes]
            omega
          constructor
          · omega
          · simp only [CONST_SEGMENT_BASE_ADDR] at *
            omega

/-- C5: within one module session (any state satisfying the pool
invariant, which holds initially since the map starts empty and which
conjunct 3 shows every successful lookup preserves): (1) looking the same
byte string up again returns the same linker symbol index and the same
elements address and leaves the module state — in particular the constant
segment — completely unchanged; (2) the first occurrence of a string
appends the immortal-refcount sentinel followed by the string's bytes to
the constant segment, registers a defined data symbol at segment offset
`old length + 4`, and returns the elements address `segment offset +
CONST_SEGMENT_BASE_ADDR`; (4) two lookups of byte-wise different strings
return distinct linker symbol indices and distinct addresses. -/
theorem c5_constant_pooling :
    (∀ (c : Ctx) (s : List Nat) (sym1 sym2 : Nat) (r : Nat × Nat) (c1 : Ctx),
       lookupStringConstant s sym1 c = (some r, c1) →
       lookupStringConstant s sym2 c1 = (some r, c1))
    ∧ (∀ (c : Ctx) (s : List Nat) (sym : Nat),
       c.constMap.lookup s = none →
       lookupStringConstant s sym c =
         (some (c.linkerSymbols.length,
                c.constSegment.length + 4 + CONST_SEGMENT_BASE_ADDR),
          { c with
            constSegment := c.constSegment ++ i32LeBytes REFCOUNT_MAX ++ s,
            constMap := (s, c.linkerSymbols.length) :: c.constMap,
            linkerSymbols := c.linkerSymbols ++
              [.data (.defined 0 (symbolName sym) 0
                (c.constSegment.length + 4) s.length)] }))
    ∧ (∀ (c : Ctx), ConstPoolInv c → ∀ (s : List Nat) (sym : Nat) (r : Nat × Nat)
        (c1 : Ctx), lookupStringConstant s sym c = (some r, c1) → ConstPoolInv c1)
    ∧ (∀ (c : Ctx), ConstPoolInv c →
       ∀ (s1 s2 : List Nat) (sym1 sym2 i1 a1 i2 a2 : Nat) (c1 c2 : Ctx),
       s1 ≠ s2 →
       lookupStringConstant s1 sym1 c = (some (i1, a1), c1) →
       lookupStringConstant s2 sym2 c1 = (some (i2, a2), c2) →
       i1 ≠ i2 ∧ a1 ≠ a2) :=
  ⟨lookupString_dedup, lookupString_grow, lookupString_inv, lookupString_distinct⟩

/-- The two 8-byte strings of the C5 witness and the states after pooling
them from the initial (empty-pool) backend state. -/
def c5S1 : List Nat := [104, 101, 108, 108, 111, 33, 33, 49]

/-- Second witness string: same length, different final byte. -/
def c5S2 : List Nat := [104, 101, 108, 108, 111, 33, 33, 50]

/-- State after pooling `c5S1`. -/
def c5C1 : Ctx := (lookupStringConstant c5S1 7 {}).2

/-- State after then pooling `c5S2`. -/
def c5C2 : Ctx := (lookupStringConstant c5S2 8 c5C1).2

/-- Witness for C5: from the empty pool, the two distinct 8-byte strings
receive linker symbol indices 0 and 1 and addresses 1028 and 1040. -/
theorem c5_constant_pooling_witness :
    c5S1 ≠ c5S2 ∧ ((0 : Nat) ≠ 1 ∧ (1028 : Nat) ≠ 1040) :=
  ⟨by decide,
    c5_constant_pooling.2.2.2 {}
      ⟨fun p hp => absurd hp (List.not_mem_nil p),
       fun p hp => absurd hp (List.not_mem_nil p)⟩
      c5S1 c5S2 7 8 0 1028 1 1040 c5C1 c5C2 (by decide) rfl rfl⟩

end RocWasm
